import Mathlib

/-!
Verification of the KnightSprint deterministic game engine.

This file contains a shallow embedding of the engine source
(`state.js`, `ai.js`): the seeded xorshift32 generator, the board and
legality model, state initialization, move submission and simultaneous
resolution, evaluation/elimination, and the built-in AI strategies.

Modelling conventions:
* JavaScript numbers used as coordinates are modelled as `Int`
  (knight offsets go negative); cell markers are `Nat`
  (`0`=EMPTY, `1`=BLOCKED, `2`=OBSTACLE, `10+pid` ownership patches).
* Machine-level 32-bit operations of the generator are modelled on `Nat`
  with explicit `% 2^32`; XOR, shifts and the unsigned reinterpretation
  `x >>> 0` act on the same 4294967296-element value space as in JS.
* A JS `Map` is modelled as an association list; `Map.set` updates an
  existing key in place or appends a fresh one, `Map.get` finds the
  unique entry, mirroring JS insertion-order iteration.
* Reading `visited[r][c]` in JS throws a TypeError when row `r` is not a
  valid index (array element is `undefined`), while a defined row with an
  out-of-range column yields `undefined` (a value distinct from EMPTY).
  `readCell` returns `Except Unit (Option Nat)`: `.error` for the throw,
  `.ok none` for the defined-row/undefined-column read, `.ok (some v)`
  for a proper read.  Functions that can throw return `Except Unit`.
-/

namespace KnightSprint

/-! ### Constants (`CELL`, `PHASE`, `PLAYER_STATUS`, `KNIGHT_MOVES`) -/

def CELL_EMPTY : Nat := 0
def CELL_BLOCKED : Nat := 1
def CELL_OBSTACLE : Nat := 2

inductive Phase where
  | SETUP
  | SELECT
  | RESOLVE
  | ANIMATE
  | EVAL
  | GAMEOVER
deriving DecidableEq, Repr

inductive PStatus where
  | ALIVE
  | ELIMINATED
  | WINNER
deriving DecidableEq, Repr

/-- The 8 knight move offsets, in the enumeration order of the source. -/
def KNIGHT_MOVES : List (Int × Int) :=
  [(-2,-1),(-2,1),(-1,-2),(-1,2),(1,-2),(1,2),(2,-1),(2,1)]

/-! ### Seeded RNG (`makeRng`, xorshift32) -/

/-- `2^32`, the JS unsigned 32-bit value space. -/
def UINT32 : Nat := 4294967296

/-- The unsigned 32-bit view of `seed | 0` in JS: the bit pattern of the
integer seed truncated to 32 bits, read as an unsigned value. -/
def toUint32 (n : Int) : Nat := (n % (UINT32 : Int)).toNat

/-- One call of the generator body: `x ^= x << 13; x ^= x >>> 17;
x ^= x << 5` over 32-bit state, on the unsigned-32-bit view. -/
def xorshift32 (x : Nat) : Nat :=
  let a := x ^^^ ((x <<< 13) % UINT32)
  let b := a ^^^ (a >>> 17)
  b ^^^ ((b <<< 5) % UINT32)

/-- `let x = (seed | 0) || 1` — the initial generator state: the 32-bit
coercion of the seed, with 0 replaced by 1. -/
def rngInit (seed : Int) : Nat :=
  let u := toUint32 seed
  if u = 0 then 1 else u

/-- Internal generator state after `n` calls with the given seed. -/
def rngStateAfter (seed : Int) (n : Nat) : Nat :=
  xorshift32^[n] (rngInit seed)

/-- The value returned by the `n`-th call (0-indexed) of `makeRng seed`:
`(x >>> 0) / 4294967296` after the `n+1`-st state update. -/
def rngOutput (seed : Int) (n : Nat) : ℚ :=
  (rngStateAfter seed (n + 1) : ℚ) / (UINT32 : ℚ)

/-! ### Board utilities -/

def inBounds (r c : Int) (size : Nat) : Bool :=
  0 ≤ r && r < (size : Int) && 0 ≤ c && c < (size : Int)

/-- `visited[r]` — `some` row when `r` is a valid index, `none` when the
JS read would yield `undefined`. -/
def rowAt (g : List (List Nat)) (r : Int) : Option (List Nat) :=
  if 0 ≤ r then g[r.toNat]? else none

/-- Total two-level read of `visited[r][c]`; `none` for any out-of-range
index. -/
def cellAt (g : List (List Nat)) (r c : Int) : Option Nat :=
  match rowAt g r with
  | none => none
  | some row => if 0 ≤ c then row[c.toNat]? else none

/-- The JS read `visited[r][c]`: a missing row throws (`.error`), a
defined row with a missing column reads `undefined` (`.ok none`). -/
def readCell (g : List (List Nat)) (r c : Int) : Except Unit (Option Nat) :=
  match rowAt g r with
  | none => .error ()
  | some row => .ok (if 0 ≤ c then row[c.toNat]? else none)

/-- Assignment `visited[r][c] = v` for indices inside the grid; writes
outside the stored lists are identity (the engine only writes to cells it
has just successfully read as in-range). -/
def writeCell (g : List (List Nat)) (r c : Int) (v : Nat) : List (List Nat) :=
  if 0 ≤ r && 0 ≤ c then
    g.set r.toNat ((g.getD r.toNat []).set c.toNat v)
  else g

/-- `getLegalMoves(r, c, size, visited)`: knight offsets that stay in
bounds and land on an EMPTY cell, in offset enumeration order.  The
in-bounds check runs first (JS `&&` short-circuit), so the grid read is
always within a `size × size` grid. -/
def getLegalMoves (r c : Int) (size : Nat) (visited : List (List Nat)) :
    List (Int × Int) :=
  KNIGHT_MOVES.filterMap (fun d =>
    if inBounds (r + d.1) (c + d.2) size
        && (cellAt visited (r + d.1) (c + d.2) == some CELL_EMPTY) then
      some (r + d.1, c + d.2)
    else none)

/-- `countMobility(r, c, size, visited)`. -/
def countMobility (r c : Int) (size : Nat) (visited : List (List Nat)) : Nat :=
  (getLegalMoves r c size visited).length

/-- `isOccupied(v)`. -/
def isOccupied (v : Nat) : Bool := v != CELL_EMPTY

/-- `makeGrid(size)` — a `size × size` grid of EMPTY cells. -/
def makeGrid (size : Nat) : List (List Nat) :=
  List.replicate size (List.replicate size CELL_EMPTY)

/-! ### Data model -/

structure Player where
  id : Nat
  isHuman : Bool
  status : PStatus
  row : Int
  col : Int
  score : Nat
  aiStrategy : Option String
deriving DecidableEq, Repr

structure TurnMove where
  pid : Nat
  fr : Int × Int
  toC : Int × Int
deriving DecidableEq, Repr

structure TurnRecord where
  turn : Nat
  moves : List TurnMove
deriving DecidableEq, Repr

inductive Event where
  | move (pid : Nat) (fr toC : Int × Int)
  | collision (players : List Nat) (square : Int × Int)
  | blocked (pid : Nat) (square : Int × Int)
  | elimination (pid : Nat) (score : Nat)
  | winner (pid : Nat)
deriving DecidableEq, Repr

structure Ruleset where
  timerSeconds : Nat
  obstacleCount : Nat
  fogOfWar : Bool
  shrinkBoard : Bool
deriving DecidableEq, Repr

/-- The default ruleset of `initState` (all overrides absent). -/
def defaultRules : Ruleset :=
  { timerSeconds := 0, obstacleCount := 0, fogOfWar := false, shrinkBoard := false }

/-- The aggregate game state.  The live generator closure `rng` is
modelled by its internal 32-bit state `rngX`; the rendering-only palette
field of players is omitted. -/
structure GameState where
  boardSize : Nat
  seed : Int
  turn : Nat
  phase : Phase
  players : List Player
  visited : List (List Nat)
  obstacles : List (Int × Int)
  pendingMoves : List (Nat × (Int × Int))
  ruleset : Ruleset
  rngX : Nat
  history : List TurnRecord
deriving DecidableEq, Repr

def statusAlive (p : Player) : Bool := p.status == PStatus.ALIVE

instance {ε α : Type} [DecidableEq ε] [DecidableEq α] :
    DecidableEq (Except ε α) := fun a b =>
  match a, b with
  | .ok x, .ok y =>
    if h : x = y then isTrue (by rw [h])
    else isFalse (fun hc => h (Except.ok.inj hc))
  | .error x, .error y =>
    if h : x = y then isTrue (by rw [h])
    else isFalse (fun hc => h (Except.error.inj hc))
  | .ok _, .error _ => isFalse (fun hc => Except.noConfusion hc)
  | .error _, .ok _ => isFalse (fun hc => Except.noConfusion hc)

/-! ### JS `Map` operations on association lists -/

def mapHasKey (m : List (Nat × α)) (k : Nat) : Bool :=
  m.any (fun kv => kv.1 == k)

/-- `Map.get(k)`. -/
def mapGet (m : List (Nat × α)) (k : Nat) : Option α :=
  (m.find? (fun kv => kv.1 == k)).map (fun kv => kv.2)

/-- `Map.set(k, v)`: update the existing entry in place, else append. -/
def mapSet (m : List (Nat × α)) (k : Nat) (v : α) : List (Nat × α) :=
  if mapHasKey m k then
    m.map (fun kv => if kv.1 == k then (k, v) else kv)
  else m ++ [(k, v)]

/-! ### State initialization -/

/-- `defaultStartPositions(n, size)`: corner-biased placement with
`pad = floor(size / 5)`. -/
def defaultStartPositions (n : Nat) (size : Nat) : List (Int × Int) :=
  let pad : Int := (size / 5 : Nat)
  let positions : List (Int × Int) :=
    [(pad, pad),
     ((size : Int) - 1 - pad, (size : Int) - 1 - pad),
     (pad, (size : Int) - 1 - pad),
     ((size : Int) - 1 - pad, pad)]
  positions.take n

/-- The occupied set protected from obstacles: every start cell and every
cell a knight move away from a start cell (JS `Set` of cell keys,
modelled as a coordinate list with membership lookup). -/
def protectedCells (startPositions : List (Int × Int)) : List (Int × Int) :=
  startPositions ++ startPositions.flatMap (fun s =>
    KNIGHT_MOVES.map (fun d => (s.1 + d.1, s.2 + d.2)))

/-- The rejection-sampling loop of `placeObstacles`, with explicit fuel
for the 2000-attempt budget.  Each attempt draws two generator values;
`Math.floor(rng() * size)` is exactly `x * size / 2^32` in naturals. -/
def obstacleLoop (size count : Nat) :
    Nat → Nat → List (Int × Int) → List (Int × Int) →
    List (Int × Int) × Nat
  | 0, x, obstacles, _ => (obstacles, x)
  | fuel + 1, x, obstacles, occupied =>
    if obstacles.length < count then
      let x1 := xorshift32 x
      let r : Int := ((x1 * size) / UINT32 : Nat)
      let x2 := xorshift32 x1
      let c : Int := ((x2 * size) / UINT32 : Nat)
      if (r, c) ∈ occupied then
        obstacleLoop size count fuel x2 obstacles occupied
      else
        obstacleLoop size count fuel x2 (obstacles ++ [(r, c)]) ((r, c) :: occupied)
    else (obstacles, x)

/-- `placeObstacles(size, rng, startPositions, count)`; also returns the
generator state after all draws. -/
def placeObstacles (size : Nat) (x : Nat) (startPositions : List (Int × Int))
    (count : Nat) : List (Int × Int) × Nat :=
  obstacleLoop size count 2000 x [] (protectedCells startPositions)

/-- A placeholder player, only used as the default of out-of-range list
reads that the source cannot reach. -/
def dummyPlayer : Player :=
  { id := 0, isHuman := false, status := PStatus.ALIVE, row := 0, col := 0,
    score := 1, aiStrategy := none }

/-- `initState({boardSize, seed, playerCount, cpuCount, ruleset})`.
Returns `none` when `playerCount > 4`, where the source would throw on
reading `starts[i][0]` past the four candidate corners.  The `ruleset`
argument is the merge of the defaults with the caller's overrides. -/
def initState (boardSize : Nat) (seed : Int) (playerCount cpuCount : Nat)
    (rules : Ruleset) : Option GameState :=
  let size := boardSize
  let x0 := rngInit seed
  let humanCount := max 1 (playerCount - cpuCount)
  let starts := defaultStartPositions playerCount size
  if playerCount ≤ 4 then
    let players := (List.range playerCount).map (fun i =>
      { id := i
        isHuman := decide (i < humanCount)
        status := PStatus.ALIVE
        row := (starts.getD i (0, 0)).1
        col := (starts.getD i (0, 0)).2
        score := 1
        aiStrategy :=
          if i == 0 then none
          else if i % 2 == 1 then some "mobility" else some "aggressor" })
    let visited0 := makeGrid size
    let visited1 := players.foldl
      (fun g p => writeCell g p.row p.col CELL_BLOCKED) visited0
    let (obstacleList, x1) := placeObstacles size x0 starts rules.obstacleCount
    let visited2 := obstacleList.foldl
      (fun g o => writeCell g o.1 o.2 CELL_OBSTACLE) visited1
    some
      { boardSize := size
        seed := seed
        turn := 0
        phase := Phase.SELECT
        players := players
        visited := visited2
        obstacles := obstacleList
        pendingMoves := []
        ruleset := rules
        rngX := x1
        history := [] }
  else none

/-! ### Move submission and resolution -/

/-- `submitMove(state, playerId, row, col)`. -/
def submitMove (s : GameState) (playerId : Nat) (row col : Int) : GameState :=
  { s with pendingMoves := mapSet s.pendingMoves playerId (row, col) }

/-- One iteration of building the `intended` map: `Map.set` the pending
destination of a player when it has one. -/
def intendedFold (pm : List (Nat × (Int × Int)))
    (m : List (Nat × (Int × Int))) (p : Player) : List (Nat × (Int × Int)) :=
  match mapGet pm p.id with
  | some mv => mapSet m p.id mv
  | none => m

/-- The `intended` map of `resolveTurn`: pending destinations of ALIVE
players, built by `Map.set` in player order. -/
def intendedOf (s : GameState) : List (Nat × (Int × Int)) :=
  (s.players.filter statusAlive).foldl (intendedFold s.pendingMoves) []

/-- The `destCount` tally of `resolveTurn`: how many `intended` entries
target a given square (the JS map is keyed by the injective cell key
string, modelled by the coordinate pair itself). -/
def destCountOf (intended : List (Nat × (Int × Int))) (d : Int × Int) : Nat :=
  (intended.filter (fun pm => pm.2 == d)).length

/-- One iteration of the resolution loop for a single player: the
updated player, the updated grid, the events it pushes and the turn
records it appends.  An ALIVE player with an intent is cancelled on a
destination collision, skipped with a `blocked` event when the
destination cell no longer reads EMPTY, and otherwise moved (cell marked
BLOCKED, score incremented).  A grid read with an out-of-range row index
propagates the JS throw. -/
def stepPlayer (intended : List (Nat × (Int × Int))) (dc : (Int × Int) → Nat)
    (p : Player) (vis : List (List Nat)) :
    Except Unit (Player × List (List Nat) × List Event × List TurnMove) :=
  if statusAlive p then
    match mapGet intended p.id with
    | none => .ok (p, vis, [], [])
    | some (nr, nc) =>
      if dc (nr, nc) > 1 then
        .ok (p, vis, [Event.collision [] (nr, nc)], [])
      else
        match readCell vis nr nc with
        | .error e => .error e
        | .ok cv =>
          if cv = some CELL_EMPTY then
            .ok ({ p with row := nr, col := nc, score := p.score + 1 },
                 writeCell vis nr nc CELL_BLOCKED,
                 [Event.move p.id (p.row, p.col) (nr, nc)],
                 [{ pid := p.id, fr := (p.row, p.col), toC := (nr, nc) }])
          else
            .ok (p, vis, [Event.blocked p.id (nr, nc)], [])
  else .ok (p, vis, [], [])

/-- The resolution loop over the players in list order, threading the
grid and concatenating events and turn records. -/
def resolveLoop (intended : List (Nat × (Int × Int)))
    (dc : (Int × Int) → Nat) :
    List Player → List (List Nat) →
    Except Unit (List Player × List (List Nat) × List Event × List TurnMove)
  | [], vis => .ok ([], vis, [], [])
  | p :: rest, vis =>
    match stepPlayer intended dc p vis with
    | .error e => .error e
    | .ok (p1, vis2, evs1, recs1) =>
      match resolveLoop intended dc rest vis2 with
      | .error e => .error e
      | .ok (ps, v, evs, recs) => .ok (p1 :: ps, v, evs1 ++ evs, recs1 ++ recs)

/-- `resolveTurn(state)`: returns `{nextState, events}`, or the
propagated JS throw when a processed intent reads a missing grid row. -/
def resolveTurn (s : GameState) :
    Except Unit (GameState × List Event) :=
  match resolveLoop (intendedOf s) (destCountOf (intendedOf s)) s.players s.visited with
  | .error e => .error e
  | .ok (players1, visited1, events, recMoves) =>
    .ok
      ({ s with
          players := players1
          visited := visited1
          history := s.history ++ [{ turn := s.turn, moves := recMoves }]
          pendingMoves := []
          turn := s.turn + 1
          phase := Phase.EVAL },
       events)

/-! ### Evaluation -/

/-- Whether an ALIVE player has no legal move from its current cell. -/
def noMoves (s : GameState) (p : Player) : Bool :=
  (getLegalMoves p.row p.col s.boardSize s.visited).isEmpty

/-- The elimination pass of `evaluateState`: every ALIVE player with no
legal move becomes ELIMINATED. -/
def elimPass (s : GameState) : List Player :=
  s.players.map (fun p =>
    if statusAlive p && noMoves s p then { p with status := PStatus.ELIMINATED } else p)

/-- The elimination events pushed by the pass, in player order. -/
def elimEventsOf (s : GameState) : List Event :=
  (s.players.filter statusAlive).filterMap (fun p =>
    if noMoves s p then some (Event.elimination p.id p.score) else none)

/-- The players still ALIVE after the elimination pass. -/
def stillAliveOf (s : GameState) : List Player :=
  (elimPass s).filter statusAlive

/-- `Math.max(...players.map(p => p.score))`, `none` for `-Infinity` on
an empty roster (which no score ever equals). -/
def maxScoreOf (s : GameState) : Option Nat :=
  ((elimPass s).map (fun p => p.score)).maximum

/-- `evaluateState(state)`: eliminate stuck ALIVE players, then detect
game over (unique survivor wins; on simultaneous elimination all players
with the maximum score win). -/
def evaluateState (s : GameState) : GameState × List Event :=
  if (stillAliveOf s).length ≤ 1 then
    if (stillAliveOf s).length = 1 then
      ({ s with
          players := (elimPass s).map (fun p =>
            if statusAlive p then { p with status := PStatus.WINNER } else p)
          phase := Phase.GAMEOVER },
       elimEventsOf s ++ [Event.winner ((stillAliveOf s).headD dummyPlayer).id])
    else
      ({ s with
          players := (elimPass s).map (fun p =>
            if maxScoreOf s = some p.score then { p with status := PStatus.WINNER } else p)
          phase := Phase.GAMEOVER },
       elimEventsOf s ++ (elimPass s).filterMap (fun p =>
         if maxScoreOf s = some p.score then some (Event.winner p.id) else none))
  else
    ({ s with players := elimPass s, phase := Phase.SELECT }, elimEventsOf s)

/-! ### AI strategies (`ai.js`)

The JS strategy functions receive the whole state, temporarily mutate
`state.visited` and advance the shared generator closure `state.rng`.
They are modelled by threading the grid and the generator state
explicitly and returning the chosen move together with the grid and
generator state at return time.  A temporary mark at a coordinate whose
row is not a valid index would throw in JS (and a valid row with an
out-of-range column would silently grow the row); both are modelled as
`none` — strategies are only ever called on legal (in-bounds) moves.
Decimal literals of the source (`0.5`, `0.2`) are modelled as exact
rationals. -/

/-- One generator call: the updated state and the returned value
`(x >>> 0) / 4294967296`. -/
def rngDraw (x : Nat) : ℚ × Nat :=
  ((xorshift32 x : ℚ) / (UINT32 : ℚ), xorshift32 x)

/-- `scoreMobility(state, r, c)`: temporarily mark the cell (value `1`),
count mobility from it, restore the original value. -/
def scoreMobilitySim (size : Nat) (visited : List (List Nat)) (r c : Int) :
    Option (Nat × List (List Nat)) :=
  match cellAt visited r c with
  | none => none
  | some orig =>
    some (countMobility r c size (writeCell visited r c 1),
          writeCell (writeCell visited r c 1) r c orig)

/-- `getOpponents(state, playerId)`. -/
def getOpponents (players : List Player) (playerId : Nat) : List Player :=
  players.filter (fun p => p.id != playerId && statusAlive p)

/-- The candidate loop of the `mobility` strategy.  `bestScore` starts at
`-1`; a strictly better mobility wins, an exact tie is replaced when one
generator draw exceeds `0.5`. -/
def mobilityLoop (size : Nat) :
    List (Int × Int) → List (List Nat) → Nat → Option (Int × Int) → Int →
    Option (Option (Int × Int) × List (List Nat) × Nat)
  | [], vis, x, best, _ => some (best, vis, x)
  | (r, c) :: rest, vis, x, best, bestScore =>
    match scoreMobilitySim size vis r c with
    | none => none
    | some (mob, vis1) =>
      if (mob : Int) > bestScore then
        mobilityLoop size rest vis1 x (some (r, c)) (mob : Int)
      else if (mob : Int) = bestScore then
        (if (rngDraw x).1 > 1/2 then
          mobilityLoop size rest vis1 (rngDraw x).2 (some (r, c)) bestScore
        else mobilityLoop size rest vis1 (rngDraw x).2 best bestScore)
      else
        mobilityLoop size rest vis1 x best bestScore

/-- The registered `mobility` strategy (`best || moves[0]`). -/
def mobilityStrategy (size : Nat) (vis : List (List Nat)) (x : Nat)
    (moves : List (Int × Int)) :
    Option ((Int × Int) × List (List Nat) × Nat) :=
  match mobilityLoop size moves vis x none (-1) with
  | none => none
  | some (best, v, x1) =>
    some (match best with | some b => b | none => moves.getD 0 (0, 0), v, x1)

/-- The combined `aggressor` score of a candidate `(r, c)`:
`2 × Σ_opponents (8 − opponentMobility) + ownMobility`, every mobility
computed on the grid with the candidate cell temporarily marked. -/
def aggressorScore (size : Nat) (opponents : List Player)
    (vis : List (List Nat)) (r c : Int) : Int :=
  (opponents.foldl
    (fun acc o =>
      acc + ((8 : Int)
        - (countMobility o.row o.col size (writeCell vis r c 1) : Int))) 0) * 2
  + (countMobility r c size (writeCell vis r c 1) : Int)

/-- The candidate loop of the `aggressor` strategy.  `bestScore` starts
at `-Infinity` (modelled as `none`); on the JS condition
`combined > bestScore || (combined === bestScore && rng() > 0.5)` both
`bestScore` and `best` are updated.  Each candidate cell is marked for
scoring and restored before the next iteration. -/
def aggressorLoop (size : Nat) (opponents : List Player) :
    List (Int × Int) → List (List Nat) → Nat → Option (Int × Int) → Option Int →
    Option (Option (Int × Int) × List (List Nat) × Nat)
  | [], vis, x, best, _ => some (best, vis, x)
  | (r, c) :: rest, vis, x, best, bestScore =>
    match cellAt vis r c with
    | none => none
    | some orig =>
      match bestScore with
      | none =>
        aggressorLoop size opponents rest
          (writeCell (writeCell vis r c 1) r c orig) x (some (r, c))
          (some (aggressorScore size opponents vis r c))
      | some b =>
        if aggressorScore size opponents vis r c > b then
          aggressorLoop size opponents rest
            (writeCell (writeCell vis r c 1) r c orig) x (some (r, c))
            (some (aggressorScore size opponents vis r c))
        else if aggressorScore size opponents vis r c = b then
          (if (rngDraw x).1 > 1/2 then
            aggressorLoop size opponents rest
              (writeCell (writeCell vis r c 1) r c orig) (rngDraw x).2
              (some (r, c)) (some (aggressorScore size opponents vis r c))
          else
            aggressorLoop size opponents rest
              (writeCell (writeCell vis r c 1) r c orig) (rngDraw x).2
              best bestScore)
        else
          aggressorLoop size opponents rest
            (writeCell (writeCell vis r c 1) r c orig) x best bestScore

/-- The registered `aggressor` strategy: with no living opponent it
delegates to `mobility`, otherwise it runs its own candidate loop. -/
def aggressorStrategy (size : Nat) (players : List Player)
    (vis : List (List Nat)) (x : Nat) (playerId : Nat)
    (moves : List (Int × Int)) :
    Option ((Int × Int) × List (List Nat) × Nat) :=
  if (getOpponents players playerId).isEmpty then
    mobilityStrategy size vis x moves
  else
    match aggressorLoop size (getOpponents players playerId) moves vis x
        none none with
    | none => none
    | some (best, v, x1) =>
      some (match best with | some b => b | none => moves.getD 0 (0, 0), v, x1)

/-- The board density used by the `balanced` strategy:
`occupiedCells / totalCells`. -/
def balancedDensity (size : Nat) (vis : List (List Nat)) : ℚ :=
  (((vis.flatten.filter (fun v => v != 0)).length : Nat) : ℚ)
    / (((size * size : Nat)) : ℚ)

/-- The `balanced` score of a candidate: weighted own mobility plus
weighted opponent-mobility reduction plus one generator draw scaled by
`0.2` as noise, every mobility computed on the grid with the candidate
cell temporarily marked. -/
def balancedScore (size : Nat) (opponents : List Player) (mw aw : ℚ)
    (vis : List (List Nat)) (r c : Int) (x : Nat) : ℚ :=
  (countMobility r c size (writeCell vis r c 1) : ℚ) * mw
  + opponents.foldl
      (fun acc o =>
        acc + ((8 : ℚ)
          - (countMobility o.row o.col size (writeCell vis r c 1) : ℚ)) * aw) 0
  + (rngDraw x).1 * (2/10)

/-- The comparison `score > bestScore` of the `balanced` loop, with the
initial `bestScore = -Infinity` modelled as `none`. -/
def balancedBetter (score : ℚ) (bestScore : Option ℚ) : Bool :=
  match bestScore with
  | none => true
  | some b => decide (score > b)

/-- The candidate loop of the `balanced` strategy: one generator draw per
candidate; only a strictly greater score replaces the best.  Each
candidate cell is marked for scoring and restored before the next
iteration. -/
def balancedLoop (size : Nat) (opponents : List Player)
    (mobWeight aggressWeight : ℚ) :
    List (Int × Int) → List (List Nat) → Nat → Option (Int × Int) → Option ℚ →
    Option (Option (Int × Int) × List (List Nat) × Nat)
  | [], vis, x, best, _ => some (best, vis, x)
  | (r, c) :: rest, vis, x, best, bestScore =>
    match cellAt vis r c with
    | none => none
    | some orig =>
      if balancedBetter
          (balancedScore size opponents mobWeight aggressWeight vis r c x)
          bestScore then
        balancedLoop size opponents mobWeight aggressWeight rest
          (writeCell (writeCell vis r c 1) r c orig) (rngDraw x).2 (some (r, c))
          (some (balancedScore size opponents mobWeight aggressWeight vis r c x))
      else
        balancedLoop size opponents mobWeight aggressWeight rest
          (writeCell (writeCell vis r c 1) r c orig) (rngDraw x).2
          best bestScore

/-- The registered `balanced` strategy: density-dependent weights
`aggressWeight = 2 × density`, `mobilityWeight = 1 − 0.5 × density`. -/
def balancedStrategy (size : Nat) (players : List Player)
    (vis : List (List Nat)) (x : Nat) (playerId : Nat)
    (moves : List (Int × Int)) :
    Option ((Int × Int) × List (List Nat) × Nat) :=
  match balancedLoop size (getOpponents players playerId)
      (1 - balancedDensity size vis * (1/2)) (balancedDensity size vis * 2)
      moves vis x none none with
  | none => none
  | some (best, v, x1) =>
    some (match best with | some b => b | none => moves.getD 0 (0, 0), v, x1)

/-! ### Basic lemmas -/

theorem list_set_of_getElem? {α : Type} {l : List α} {i : Nat} {a : α}
    (h : l[i]? = some a) : l.set i a = l := by
  induction l generalizing i with
  | nil => simp at h
  | cons b t ih =>
    cases i with
    | zero => simp_all
    | succ j =>
      simp only [List.getElem?_cons_succ] at h
      simp [List.set_cons_succ, ih h]

theorem toUint32_lt (n : Int) : toUint32 n < UINT32 := by
  have h1 : (0 : Int) < (UINT32 : Int) := by norm_num [UINT32]
  have h2 : n % (UINT32 : Int) < (UINT32 : Int) := Int.emod_lt_of_pos n h1
  have h3 : 0 ≤ n % (UINT32 : Int) := Int.emod_nonneg n (by norm_num [UINT32])
  unfold toUint32
  omega

theorem uint32_eq_pow : UINT32 = 2 ^ 32 := by norm_num [UINT32]

theorem xorshift32_lt {x : Nat} (h : x < UINT32) : xorshift32 x < UINT32 := by
  rw [uint32_eq_pow] at h ⊢
  unfold xorshift32
  have hU : 0 < UINT32 := by norm_num [UINT32]
  have ha : x ^^^ (x <<< 13) % UINT32 < 2 ^ 32 :=
    Nat.xor_lt_two_pow h (by rw [uint32_eq_pow] at hU ⊢; exact Nat.mod_lt _ hU)
  have hb : (x ^^^ (x <<< 13) % UINT32) ^^^ (x ^^^ (x <<< 13) % UINT32) >>> 17 < 2 ^ 32 := by
    refine Nat.xor_lt_two_pow ha (lt_of_le_of_lt ?_ ha)
    simpa [Nat.shiftRight_eq_div_pow] using
      Nat.div_le_self (x ^^^ (x <<< 13) % UINT32) (2 ^ 17)
  exact Nat.xor_lt_two_pow hb (by rw [← uint32_eq_pow]; exact Nat.mod_lt _ hU)

theorem rngInit_lt (seed : Int) : rngInit seed < UINT32 := by
  unfold rngInit
  have := toUint32_lt seed
  simp only []
  split <;> simp_all [UINT32]

theorem rngStateAfter_lt (seed : Int) (n : Nat) : rngStateAfter seed n < UINT32 := by
  unfold rngStateAfter
  induction n with
  | zero => simpa using rngInit_lt seed
  | succ m ih =>
    rw [Function.iterate_succ_apply']
    exact xorshift32_lt ih

/-- C3: `makeRng(seed)` is the xorshift32 generator: the internal state
starts as the 32-bit coercion of the seed with 0 mapped to 1, each call
applies the left-13 / unsigned-right-17 / left-5 XOR-shift triple over
32-bit state and returns the resulting unsigned value divided by `2^32`;
every returned value lies in `[0, 1)`, and the output is a pure function
of the seed and the call count. -/
theorem makeRng_spec (seed : Int) (n : Nat) :
    rngStateAfter seed 0 = (if toUint32 seed = 0 then 1 else toUint32 seed) ∧
    rngStateAfter seed (n + 1) = xorshift32 (rngStateAfter seed n) ∧
    rngOutput seed n = (rngStateAfter seed (n + 1) : ℚ) / (2 ^ 32 : ℚ) ∧
    0 ≤ rngOutput seed n ∧ rngOutput seed n < 1 := by
  refine ⟨rfl, ?_, ?_, ?_, ?_⟩
  · unfold rngStateAfter
    exact Function.iterate_succ_apply' xorshift32 n (rngInit seed)
  · unfold rngOutput
    norm_num [UINT32]
  · unfold rngOutput
    positivity
  · unfold rngOutput
    rw [div_lt_one (by norm_num [UINT32])]
    have h := rngStateAfter_lt seed (n + 1)
    exact_mod_cast h

/-! ### Concrete states for witnesses -/

/-- An inert placeholder state (only used as a default for `Option.getD`
on results that are proved to be `some`/`ok`). -/
def dummyState : GameState :=
  { boardSize := 0, seed := 0, turn := 0, phase := Phase.SETUP, players := [],
    visited := [], obstacles := [], pendingMoves := [], ruleset := defaultRules,
    rngX := 1, history := [] }

/-- Scenario A of the spec: `boardSize=8, seed=42, playerCount=2,
cpuCount=0, obstacleCount=0`. -/
def stateA : GameState := (initState 8 42 2 0 defaultRules).getD dummyState

/-! ### C7: corner-biased start positions -/

theorem range_map_getD {α : Type} (l : List α) (d : α) :
    (List.range l.length).map (fun i => l.getD i d) = l := by
  apply List.ext_getElem
  · simp
  · intro i h1 h2
    simp [List.getD_eq_getElem?_getD, List.getElem?_eq_getElem h2]

theorem range_map_getD_len {α : Type} (l : List α) (d : α) (n : Nat)
    (h : l.length = n) :
    (List.range n).map (fun i => l.getD i d) = l := by
  subst h
  exact range_map_getD l d

theorem range_map_const {α : Type} (n : Nat) (a : α) :
    (List.range n).map (fun _ => a) = List.replicate n a := by
  induction n with
  | zero => rfl
  | succ m ih => rw [List.range_succ, List.map_append, ih, List.replicate_succ']; rfl

/-- C7: `initState` places the players on the first `playerCount` of the
corner-biased positions `(pad,pad)`, `(size−1−pad,size−1−pad)`,
`(pad,size−1−pad)`, `(size−1−pad,pad)` with `pad = ⌊size/5⌋`, in that
fixed order, all with score 1 and status ALIVE, and the phase is SELECT.
(The Scenario A instance — start cells `(1,1)` and `(6,6)` marked
non-EMPTY for `boardSize=8, seed=42, playerCount=2, cpuCount=0,
obstacleCount=0` — is checked in the witness.) -/
theorem initState_start_positions (boardSize : Nat) (seed : Int)
    (playerCount cpuCount : Nat) (rules : Ruleset) (hpc : playerCount ≤ 4)
    (s : GameState) (hs : initState boardSize seed playerCount cpuCount rules = some s) :
    s.players.map (fun p => (p.row, p.col)) =
      (let pad : Int := (boardSize / 5 : Nat)
       [(pad, pad),
        ((boardSize : Int) - 1 - pad, (boardSize : Int) - 1 - pad),
        (pad, (boardSize : Int) - 1 - pad),
        ((boardSize : Int) - 1 - pad, pad)]).take playerCount ∧
    s.players.map (fun p => p.score) = List.replicate playerCount 1 ∧
    s.players.map (fun p => p.status) = List.replicate playerCount PStatus.ALIVE ∧
    s.phase = Phase.SELECT := by
  unfold initState at hs
  rw [if_pos hpc] at hs
  obtain rfl : _ = s := Option.some.inj hs
  refine ⟨?_, ?_, ?_, rfl⟩
  · have hlen : (defaultStartPositions playerCount boardSize).length = playerCount := by
      simp [defaultStartPositions]
      omega
    rw [List.map_map]
    trans (List.range playerCount).map (fun i =>
      (defaultStartPositions playerCount boardSize).getD i ((0 : Int), (0 : Int)))
    · exact List.map_congr_left (fun i _ => rfl)
    · rw [range_map_getD_len _ _ _ hlen]
      rfl
  · rw [List.map_map]
    trans (List.range playerCount).map (fun _ => (1 : Nat))
    · exact List.map_congr_left (fun i _ => rfl)
    · exact range_map_const _ _
  · rw [List.map_map]
    trans (List.range playerCount).map (fun _ => PStatus.ALIVE)
    · exact List.map_congr_left (fun i _ => rfl)
    · exact range_map_const _ _

/-- Witness for C7: the Scenario A instance. -/
theorem initState_start_positions_witness :
    initState 8 42 2 0 defaultRules = some stateA ∧
    stateA.players.map (fun p => (p.row, p.col)) = [((1 : Int), (1 : Int)), (6, 6)] ∧
    stateA.players.map (fun p => p.score) = List.replicate 2 1 ∧
    stateA.players.map (fun p => p.status) = List.replicate 2 PStatus.ALIVE ∧
    stateA.phase = Phase.SELECT ∧
    cellAt stateA.visited 1 1 = some CELL_BLOCKED ∧
    cellAt stateA.visited 6 6 = some CELL_BLOCKED := by
  have h := initState_start_positions 8 42 2 0 defaultRules (by decide) stateA rfl
  refine ⟨rfl, ?_, h.2.1, h.2.2.1, h.2.2.2, by decide, by decide⟩
  rw [h.1]
  decide

/-! ### Destructors for grid reads and resolution steps -/

theorem rowAt_eq_some {g : List (List Nat)} {r : Int} {row : List Nat}
    (h : rowAt g r = some row) : 0 ≤ r ∧ g[r.toNat]? = some row := by
  unfold rowAt at h
  split at h
  · exact ⟨by assumption, h⟩
  · exact absurd h (by simp)

theorem readCell_ok_some {g : List (List Nat)} {r c : Int} {v : Nat}
    (h : readCell g r c = Except.ok (some v)) :
    0 ≤ r ∧ 0 ≤ c ∧
      ∃ row, g[r.toNat]? = some row ∧ row[c.toNat]? = some v := by
  unfold readCell at h
  split at h
  · exact absurd h (by simp)
  · rename_i row hrow
    obtain ⟨hr, hrow2⟩ := rowAt_eq_some hrow
    split at h
    · exact ⟨hr, by assumption, row, hrow2, Except.ok.inj h⟩
    · exact absurd (Except.ok.inj h) (by simp)

theorem writeCell_eq_set {g : List (List Nat)} {r c : Int} {row : List Nat}
    (hr : 0 ≤ r) (hc : 0 ≤ c) (hrow : g[r.toNat]? = some row) (v : Nat) :
    writeCell g r c v = g.set r.toNat (row.set c.toNat v) := by
  unfold writeCell
  rw [if_pos (by simp [hr, hc])]
  congr 2
  rw [List.getD_eq_getElem?_getD, hrow]
  rfl

/-- Writing anywhere never changes what a cell that did not read EMPTY
reads, provided the written cell itself read EMPTY. -/
theorem readCell_writeCell_preserve {g : List (List Nat)} {r c : Int}
    (hrc : readCell g r c = Except.ok (some CELL_EMPTY)) (v : Nat)
    (a b : Int) (hab : readCell g a b ≠ Except.ok (some CELL_EMPTY)) :
    readCell (writeCell g r c v) a b = readCell g a b := by
  obtain ⟨hr, hc, row, hrow, hcell⟩ := readCell_ok_some hrc
  have hrlt : r.toNat < g.length := (List.getElem?_eq_some.mp hrow).1
  rw [writeCell_eq_set hr hc hrow]
  unfold readCell rowAt
  by_cases ha : 0 ≤ a
  case neg => simp [ha]
  case pos =>
    simp only [if_pos ha]
    by_cases har : a.toNat = r.toNat
    case neg => rw [List.getElem?_set_ne (fun e => har e.symm)]
    case pos =>
      have haR : a = r := by omega
      subst haR
      rw [List.getElem?_set_self hrlt, hrow]
      by_cases hb : 0 ≤ b
      case neg => simp [hb]
      case pos =>
        simp only [if_pos hb]
        by_cases hbc : b.toNat = c.toNat
        case neg => rw [List.getElem?_set_ne (fun e => hbc e.symm)]
        case pos =>
          have hbC : b = c := by omega
          subst hbC
          exact absurd hrc hab

/-- Shape of a successful single-player resolution step. -/
theorem stepPlayer_cases {intended : List (Nat × (Int × Int))}
    {dc : (Int × Int) → Nat} {p : Player} {vis : List (List Nat)}
    {out : Player × List (List Nat) × List Event × List TurnMove}
    (h : stepPlayer intended dc p vis = .ok out) :
    (out = (p, vis, [], []) ∧
      (statusAlive p = false ∨ mapGet intended p.id = none)) ∨
    (∃ nr nc, statusAlive p = true ∧ mapGet intended p.id = some (nr, nc) ∧
      ((dc (nr, nc) > 1 ∧ out = (p, vis, [Event.collision [] (nr, nc)], [])) ∨
       (¬ dc (nr, nc) > 1 ∧
         readCell vis nr nc = .ok (some CELL_EMPTY) ∧
         out = ({ p with row := nr, col := nc, score := p.score + 1 },
                writeCell vis nr nc CELL_BLOCKED,
                [Event.move p.id (p.row, p.col) (nr, nc)],
                [{ pid := p.id, fr := (p.row, p.col), toC := (nr, nc) }])) ∨
       (¬ dc (nr, nc) > 1 ∧
         (∃ cv, readCell vis nr nc = .ok cv ∧ cv ≠ some CELL_EMPTY) ∧
         out = (p, vis, [Event.blocked p.id (nr, nc)], [])))) := by
  unfold stepPlayer at h
  split at h
  case isTrue halive =>
    split at h
    case h_1 hnone =>
      exact Or.inl ⟨(Except.ok.inj h).symm, Or.inr hnone⟩
    case h_2 nr nc hsome =>
      refine Or.inr ⟨nr, nc, halive, hsome, ?_⟩
      split at h
      case isTrue hdc =>
        exact Or.inl ⟨hdc, (Except.ok.inj h).symm⟩
      case isFalse hdc =>
        split at h
        case h_1 => exact absurd h (by simp)
        case h_2 cv hcv =>
          split at h
          case isTrue hemp =>
            subst hemp
            exact Or.inr (Or.inl ⟨hdc, hcv, (Except.ok.inj h).symm⟩)
          case isFalse hemp =>
            exact Or.inr (Or.inr ⟨hdc, ⟨cv, hcv, hemp⟩, (Except.ok.inj h).symm⟩)
  case isFalse halive =>
    exact Or.inl ⟨(Except.ok.inj h).symm, Or.inl (by simpa using halive)⟩

/-- Shape of a successful resolution loop on a cons cell. -/
theorem resolveLoop_cons_ok {intended : List (Nat × (Int × Int))}
    {dc : (Int × Int) → Nat} {p : Player} {rest : List Player}
    {vis : List (List Nat)}
    {out : List Player × List (List Nat) × List Event × List TurnMove}
    (h : resolveLoop intended dc (p :: rest) vis = .ok out) :
    ∃ p1 vis2 evs1 recs1 ps v evs recs,
      stepPlayer intended dc p vis = .ok (p1, vis2, evs1, recs1) ∧
      resolveLoop intended dc rest vis2 = .ok (ps, v, evs, recs) ∧
      out = (p1 :: ps, v, evs1 ++ evs, recs1 ++ recs) := by
  unfold resolveLoop at h
  split at h
  · exact absurd h (by simp)
  · rename_i p1 vis2 evs1 recs1 hstep
    split at h
    · exact absurd h (by simp)
    · rename_i ps v evs recs hrec
      exact ⟨p1, vis2, evs1, recs1, ps, v, evs, recs, hstep, hrec,
        (Except.ok.inj h).symm⟩

theorem resolveLoop_nil_ok {intended : List (Nat × (Int × Int))}
    {dc : (Int × Int) → Nat} {vis : List (List Nat)}
    {out : List Player × List (List Nat) × List Event × List TurnMove}
    (h : resolveLoop intended dc [] vis = .ok out) :
    out = ([], vis, [], []) :=
  (Except.ok.inj h).symm

/-! ### C5: grid monotonicity -/

theorem resolveLoop_visited_preserve {intended : List (Nat × (Int × Int))}
    {dc : (Int × Int) → Nat} (ps : List Player) :
    ∀ (vis : List (List Nat)) ps1 vis1 evs recs,
      resolveLoop intended dc ps vis = .ok (ps1, vis1, evs, recs) →
      ∀ a b : Int, readCell vis a b ≠ Except.ok (some CELL_EMPTY) →
        readCell vis1 a b = readCell vis a b := by
  induction ps with
  | nil =>
    intro vis ps1 vis1 evs recs h a b hab
    obtain ⟨rfl, rfl, rfl, rfl⟩ : ps1 = [] ∧ vis1 = vis ∧ evs = [] ∧ recs = [] := by
      simpa using resolveLoop_nil_ok h
    rfl
  | cons p rest ih =>
    intro vis ps1 vis1 evs recs h a b hab
    obtain ⟨p1, vis2, evs1, recs1, ps2, v, evs2, recs2, hstep, hrec, hout⟩ :=
      resolveLoop_cons_ok h
    have hv1 : vis1 = v := congrArg (fun t => t.2.1) hout
    rcases stepPlayer_cases hstep with
      ⟨hout2, _⟩ | ⟨nr, nc, _, _, ⟨_, hout2⟩ | ⟨_, hemp, hout2⟩ | ⟨_, _, hout2⟩⟩
    · have hv2 : vis2 = vis := congrArg (fun t => t.2.1) hout2
      have hab2 : readCell vis2 a b ≠ Except.ok (some CELL_EMPTY) := by
        rw [hv2]; exact hab
      rw [hv1, ih vis2 ps2 v evs2 recs2 hrec a b hab2, hv2]
    · have hv2 : vis2 = vis := congrArg (fun t => t.2.1) hout2
      have hab2 : readCell vis2 a b ≠ Except.ok (some CELL_EMPTY) := by
        rw [hv2]; exact hab
      rw [hv1, ih vis2 ps2 v evs2 recs2 hrec a b hab2, hv2]
    · have hv2 : vis2 = writeCell vis nr nc CELL_BLOCKED :=
        congrArg (fun t => t.2.1) hout2
      have hpre := readCell_writeCell_preserve hemp CELL_BLOCKED a b hab
      have hab2 : readCell vis2 a b ≠ Except.ok (some CELL_EMPTY) := by
        rw [hv2, hpre]; exact hab
      rw [hv1, ih vis2 ps2 v evs2 recs2 hrec a b hab2, hv2, hpre]
    · have hv2 : vis2 = vis := congrArg (fun t => t.2.1) hout2
      have hab2 : readCell vis2 a b ≠ Except.ok (some CELL_EMPTY) := by
        rw [hv2]; exact hab
      rw [hv1, ih vis2 ps2 v evs2 recs2 hrec a b hab2, hv2]

/-- C5: grid monotonicity — `submitMove` and `evaluateState` never touch
the grid, and a successful `resolveTurn` leaves every cell that did not
read EMPTY with exactly its old value (so a non-EMPTY cell never reverts
to EMPTY, and a cell leaves EMPTY at most once across any sequence of
transitions). -/
theorem grid_monotonic (s : GameState) :
    (∀ (pid : Nat) (r c : Int), (submitMove s pid r c).visited = s.visited) ∧
    (∀ s1 evs, resolveTurn s = Except.ok (s1, evs) →
      ∀ a b : Int, readCell s.visited a b ≠ Except.ok (some CELL_EMPTY) →
        readCell s1.visited a b = readCell s.visited a b) ∧
    (evaluateState s).1.visited = s.visited := by
  refine ⟨fun _ _ _ => rfl, ?_, ?_⟩
  · intro s1 evs h a b hab
    unfold resolveTurn at h
    split at h
    · exact absurd h (by simp)
    · rename_i players1 visited1 events recMoves hloop
      have h2 := Except.ok.inj h
      have h3 : _ = s1 := congrArg Prod.fst h2
      have h4 : _ = evs := congrArg Prod.snd h2
      subst h3
      subst h4
      exact resolveLoop_visited_preserve s.players s.visited _ _ _ _ hloop a b hab
  · unfold evaluateState
    split
    · split <;> rfl
    · rfl

/-- The state after resolving a knight move of player 0 from `(1,1)` to
`(2,3)` in Scenario A. -/
def rA : GameState :=
  ((resolveTurn (submitMove stateA 0 2 3)).toOption.getD (dummyState, [])).1

/-- Witness for C5: resolving an actual knight move of Scenario A leaves
the already-marked cell `(1,1)` unchanged. -/
theorem grid_monotonic_witness :
    (submitMove stateA 0 3 2).visited = stateA.visited ∧
    readCell rA.visited 1 1 = readCell stateA.visited 1 1 ∧
    (evaluateState stateA).1.visited = stateA.visited := by
  refine ⟨(grid_monotonic stateA).1 0 3 2, ?_, (grid_monotonic stateA).2.2⟩
  exact (grid_monotonic (submitMove stateA 0 2 3)).2.1 rA
    [Event.move 0 (1, 1) (2, 3)] rfl 1 1 (by decide)

/-! ### The `intended` map of `resolveTurn`, explicitly -/

theorem mapGet_nil {α : Type} (k : Nat) : mapGet ([] : List (Nat × α)) k = none := rfl

theorem mapGet_cons {α : Type} (k1 k : Nat) (v : α) (m : List (Nat × α)) :
    mapGet ((k1, v) :: m) k = if k1 == k then some v else mapGet m k := by
  by_cases h : (k1 == k) = true
  · unfold mapGet
    rw [List.find?_cons_of_pos _ (by simpa using h), if_pos h]
    rfl
  · unfold mapGet
    rw [List.find?_cons_of_neg _ (by simpa using h), if_neg h]

theorem intendedFold_some {pm : List (Nat × (Int × Int))} {p : Player}
    {mv : Int × Int} (hmv : mapGet pm p.id = some mv)
    (m : List (Nat × (Int × Int))) :
    intendedFold pm m p = mapSet m p.id mv := by
  unfold intendedFold
  rw [hmv]

theorem intendedFold_none {pm : List (Nat × (Int × Int))} {p : Player}
    (hmv : mapGet pm p.id = none) (m : List (Nat × (Int × Int))) :
    intendedFold pm m p = m := by
  unfold intendedFold
  rw [hmv]

theorem mapSet_of_not_mem {α : Type} {m : List (Nat × α)} {k : Nat}
    (h : ∀ kv ∈ m, kv.1 ≠ k) (v : α) : mapSet m k v = m ++ [(k, v)] := by
  have hnk : (m.any (fun kv => kv.1 == k)) = false := by
    rw [List.any_eq_false]
    intro kv hmem
    simpa using h kv hmem
  unfold mapSet mapHasKey
  rw [hnk]
  simp

/-- The pending-intent lookups of ALIVE players, as a `filterMap`. -/
def intendedSimple (s : GameState) : List (Nat × (Int × Int)) :=
  (s.players.filter statusAlive).filterMap (fun p =>
    (mapGet s.pendingMoves p.id).map (fun mv => (p.id, mv)))

theorem intended_keys_mem {pm : List (Nat × (Int × Int))} {l : List Player}
    {kv : Nat × (Int × Int)}
    (h : kv ∈ l.filterMap (fun p => (mapGet pm p.id).map (fun mv => (p.id, mv)))) :
    kv.1 ∈ l.map (fun p => p.id) := by
  obtain ⟨p, hp, hkv⟩ := List.mem_filterMap.mp h
  cases hmv : mapGet pm p.id with
  | none => rw [hmv] at hkv; exact absurd hkv (by simp)
  | some mv =>
    rw [hmv] at hkv
    obtain rfl : (p.id, mv) = kv := by simpa using hkv
    exact List.mem_map.mpr ⟨p, hp, rfl⟩

theorem foldl_mapSet_eq_filterMap (pm : List (Nat × (Int × Int))) :
    ∀ (l : List Player) (acc : List (Nat × (Int × Int))),
      (l.map (fun p => p.id)).Nodup →
      (∀ kv ∈ acc, kv.1 ∉ l.map (fun p => p.id)) →
      l.foldl (intendedFold pm) acc
      = acc ++ l.filterMap (fun p => (mapGet pm p.id).map (fun mv => (p.id, mv))) := by
  intro l
  induction l with
  | nil => intro acc _ _; simp
  | cons p rest ih =>
    intro acc hnd hdisj
    have hnd2 : (rest.map (fun p => p.id)).Nodup := (List.nodup_cons.mp hnd).2
    have hpid : p.id ∉ rest.map (fun p => p.id) := (List.nodup_cons.mp hnd).1
    rw [List.foldl_cons]
    cases hmv : mapGet pm p.id with
    | none =>
      rw [intendedFold_none hmv acc]
      rw [ih acc hnd2 (fun kv hkv => fun hmem =>
        hdisj kv hkv (List.mem_cons_of_mem _ hmem))]
      simp [List.filterMap_cons, hmv]
    | some mv =>
      rw [intendedFold_some hmv acc]
      rw [mapSet_of_not_mem (fun kv hkv => fun he =>
        hdisj kv hkv (he ▸ List.mem_cons_self _ _)) mv]
      rw [ih (acc ++ [(p.id, mv)]) hnd2 ?_]
      · simp [List.filterMap_cons, hmv]
      · intro kv hkv
        rcases List.mem_append.mp hkv with hin | hin
        · exact fun hmem => hdisj kv hin (List.mem_cons_of_mem _ hmem)
        · obtain rfl : kv = (p.id, mv) := by simpa using hin
          exact hpid

/-- Under distinct player ids, the `intended` map built by `Map.set` in
player order is just the list of alive players' pending lookups. -/
theorem intendedOf_eq_simple (s : GameState)
    (hnd : (s.players.map (fun p => p.id)).Nodup) :
    intendedOf s = intendedSimple s := by
  unfold intendedOf intendedSimple
  have hsub : ((s.players.filter statusAlive).map (fun (p : Player) => p.id)).Nodup :=
    (List.Sublist.map (fun (p : Player) => p.id) (List.filter_sublist _)).nodup hnd
  exact foldl_mapSet_eq_filterMap s.pendingMoves (s.players.filter statusAlive) []
    hsub (by simp)

theorem mapGet_filterMap_of_not_mem {pm : List (Nat × (Int × Int))}
    {l : List Player} {k : Nat} (h : k ∉ l.map (fun p => p.id)) :
    mapGet (l.filterMap (fun p => (mapGet pm p.id).map (fun mv => (p.id, mv)))) k
      = none := by
  unfold mapGet
  rw [List.find?_eq_none.mpr]
  · rfl
  · intro kv hkv hbeq
    have hk : kv.1 = k := by simpa using hbeq
    exact h (hk ▸ intended_keys_mem hkv)

theorem mapGet_filterMap_of_mem {pm : List (Nat × (Int × Int))} :
    ∀ {l : List Player} {p : Player},
      (l.map (fun q => q.id)).Nodup → p ∈ l →
      mapGet (l.filterMap (fun q => (mapGet pm q.id).map (fun mv => (q.id, mv)))) p.id
        = mapGet pm p.id := by
  intro l
  induction l with
  | nil => intro p _ hp; exact absurd hp (by simp)
  | cons q rest ih =>
    intro p hnd hp
    have hnd2 : (rest.map (fun q => q.id)).Nodup := (List.nodup_cons.mp hnd).2
    have hqid : q.id ∉ rest.map (fun q => q.id) := (List.nodup_cons.mp hnd).1
    rcases List.mem_cons.mp hp with rfl | hp2
    · cases hmv : mapGet pm p.id with
      | none =>
        simp only [List.filterMap_cons, hmv, Option.map_none']
        exact mapGet_filterMap_of_not_mem hqid
      | some mv =>
        simp only [List.filterMap_cons, hmv, Option.map_some']
        rw [mapGet_cons]
        simp
    · cases hmv : mapGet pm q.id with
      | none =>
        simp only [List.filterMap_cons, hmv, Option.map_none']
        exact ih hnd2 hp2
      | some mv =>
        have hne : ¬ (q.id == p.id) = true := by
          simp only [beq_iff_eq]
          intro he
          exact hqid (he ▸ List.mem_map.mpr ⟨p, hp2, rfl⟩)
        simp only [List.filterMap_cons, hmv, Option.map_some']
        rw [mapGet_cons, if_neg hne]
        exact ih hnd2 hp2

/-- For an ALIVE player of a distinct-id roster, the `intended` lookup
agrees with the pending-move lookup. -/
theorem mapGet_intendedOf (s : GameState)
    (hnd : (s.players.map (fun p => p.id)).Nodup)
    {p : Player} (hp : p ∈ s.players) (halive : statusAlive p) :
    mapGet (intendedOf s) p.id = mapGet s.pendingMoves p.id := by
  rw [intendedOf_eq_simple s hnd]
  unfold intendedSimple
  have hsub : ((s.players.filter statusAlive).map (fun (q : Player) => q.id)).Nodup :=
    (List.Sublist.map (fun (q : Player) => q.id) (List.filter_sublist _)).nodup hnd
  exact mapGet_filterMap_of_mem hsub (List.mem_filter.mpr ⟨hp, halive⟩)

/-! ### C1: what resolution does and does not validate -/

/-- Every `move` event emitted by the loop names a processed player. -/
theorem resolveLoop_move_pid_mem {intended : List (Nat × (Int × Int))}
    {dc : (Int × Int) → Nat} :
    ∀ (ps : List Player) (vis : List (List Nat))
      (out : List Player × List (List Nat) × List Event × List TurnMove),
      resolveLoop intended dc ps vis = .ok out →
      ∀ pid fr t, Event.move pid fr t ∈ out.2.2.1 →
        pid ∈ ps.map (fun p => p.id) := by
  intro ps
  induction ps with
  | nil =>
    intro vis out h pid fr t hmem
    rw [resolveLoop_nil_ok h] at hmem
    exact absurd hmem (by simp)
  | cons p rest ih =>
    intro vis out h pid fr t hmem
    obtain ⟨p1, vis2, evs1, recs1, ps2, v, evs2, recs2, hstep, hrec, hout⟩ :=
      resolveLoop_cons_ok h
    have hevs : out.2.2.1 = evs1 ++ evs2 := congrArg (fun x => x.2.2.1) hout
    rw [hevs] at hmem
    rcases List.mem_append.mp hmem with h1 | h2
    · rcases stepPlayer_cases hstep with
        ⟨hout2, _⟩ | ⟨nr, nc, _, _, ⟨_, hout2⟩ | ⟨_, _, hout2⟩ | ⟨_, _, hout2⟩⟩
      · rw [show evs1 = [] from congrArg (fun x => x.2.2.1) hout2] at h1
        exact absurd h1 (by simp)
      · rw [show evs1 = [Event.collision [] (nr, nc)] from
          congrArg (fun x => x.2.2.1) hout2] at h1
        exact Event.noConfusion (List.mem_singleton.mp h1)
      · rw [show evs1 = [Event.move p.id (p.row, p.col) (nr, nc)] from
          congrArg (fun x => x.2.2.1) hout2] at h1
        have hmv := List.mem_singleton.mp h1
        injection hmv with hpid hfr ht
        rw [hpid]
        exact List.mem_cons_self _ _
      · rw [show evs1 = [Event.blocked p.id (nr, nc)] from
          congrArg (fun x => x.2.2.1) hout2] at h1
        exact Event.noConfusion (List.mem_singleton.mp h1)
    · exact List.mem_cons_of_mem _ (ih vis2 (ps2, v, evs2, recs2) hrec pid fr t h2)

/-- A pending intent of an ALIVE player whose destination does not
currently read EMPTY never moves that player: its entry in the player
list is unchanged and no `move` event for it is emitted. -/
theorem resolveLoop_nonempty_dest_unchanged {intended : List (Nat × (Int × Int))}
    {dc : (Int × Int) → Nat} (d : Int × Int) :
    ∀ (ps : List Player) (vis : List (List Nat))
      (out : List Player × List (List Nat) × List Event × List TurnMove),
      (ps.map (fun p => p.id)).Nodup →
      resolveLoop intended dc ps vis = .ok out →
      readCell vis d.1 d.2 ≠ Except.ok (some CELL_EMPTY) →
      ∀ (i : Nat) (p0 : Player), ps[i]? = some p0 → statusAlive p0 →
        mapGet intended p0.id = some d →
        out.1[i]? = some p0 ∧ (∀ fr t, Event.move p0.id fr t ∉ out.2.2.1) := by
  intro ps
  induction ps with
  | nil =>
    intro vis out _ h _ i p0 hp
    exact absurd hp (by simp)
  | cons p rest ih =>
    intro vis out hnd h hne i p0 hp halive hint
    obtain ⟨p1, vis2, evs1, recs1, ps2, v, evs2, recs2, hstep, hrec, hout⟩ :=
      resolveLoop_cons_ok h
    have hnd2 : (rest.map (fun p => p.id)).Nodup := (List.nodup_cons.mp hnd).2
    have hpid : p.id ∉ rest.map (fun p => p.id) := (List.nodup_cons.mp hnd).1
    have hps : out.1 = p1 :: ps2 := congrArg (fun x => x.1) hout
    have hevs : out.2.2.1 = evs1 ++ evs2 := congrArg (fun x => x.2.2.1) hout
    cases i with
    | zero =>
      obtain rfl : p0 = p := by
        have := hp
        rw [List.getElem?_cons_zero] at this
        exact (Option.some.inj this).symm
      have hnomove2 : ∀ fr t, Event.move p0.id fr t ∉ evs2 := by
        intro fr t hmem
        exact hpid (resolveLoop_move_pid_mem rest vis2 (ps2, v, evs2, recs2)
          hrec p0.id fr t hmem)
      rcases stepPlayer_cases hstep with
        ⟨hout2, hdead⟩ | ⟨nr, nc, _, hsome, ⟨_, hout2⟩ | ⟨_, hemp, hout2⟩ | ⟨_, _, hout2⟩⟩
      · rcases hdead with hf | hn
        · rw [halive] at hf; exact absurd hf (by simp)
        · rw [hint] at hn; exact absurd hn (by simp)
      · have hp1 : p1 = p0 := congrArg (fun x => x.1) hout2
        have he1 : evs1 = [Event.collision [] (nr, nc)] :=
          congrArg (fun x => x.2.2.1) hout2
        refine ⟨by rw [hps, List.getElem?_cons_zero, hp1], ?_⟩
        intro fr t hmem
        rw [hevs, he1] at hmem
        rcases List.mem_append.mp hmem with h1 | h2
        · exact Event.noConfusion (List.mem_singleton.mp h1)
        · exact hnomove2 fr t h2
      · obtain rfl : (nr, nc) = d := Option.some.inj (hsome ▸ hint)
        exact absurd hemp hne
      · have hp1 : p1 = p0 := congrArg (fun x => x.1) hout2
        have he1 : evs1 = [Event.blocked p0.id (nr, nc)] :=
          congrArg (fun x => x.2.2.1) hout2
        refine ⟨by rw [hps, List.getElem?_cons_zero, hp1], ?_⟩
        intro fr t hmem
        rw [hevs, he1] at hmem
        rcases List.mem_append.mp hmem with h1 | h2
        · exact Event.noConfusion (List.mem_singleton.mp h1)
        · exact hnomove2 fr t h2
    | succ j =>
      rw [List.getElem?_cons_succ] at hp
      have hp0mem : p0 ∈ rest := List.getElem?_mem hp
      have hne2 : readCell vis2 d.1 d.2 ≠ Except.ok (some CELL_EMPTY) := by
        rcases stepPlayer_cases hstep with
          ⟨hout2, _⟩ | ⟨nr, nc, _, _, ⟨_, hout2⟩ | ⟨_, hemp, hout2⟩ | ⟨_, _, hout2⟩⟩
        · rw [show vis2 = vis from congrArg (fun x => x.2.1) hout2]; exact hne
        · rw [show vis2 = vis from congrArg (fun x => x.2.1) hout2]; exact hne
        · rw [show vis2 = writeCell vis nr nc CELL_BLOCKED from
            congrArg (fun x => x.2.1) hout2]
          rw [readCell_writeCell_preserve hemp CELL_BLOCKED d.1 d.2 hne]
          exact hne
        · rw [show vis2 = vis from congrArg (fun x => x.2.1) hout2]; exact hne
      obtain ⟨hunch, hnomove2⟩ :=
        ih vis2 (ps2, v, evs2, recs2) hnd2 hrec hne2 j p0 hp halive hint
      refine ⟨by rw [hps, List.getElem?_cons_succ]; exact hunch, ?_⟩
      intro fr t hmem
      rw [hevs] at hmem
      rcases List.mem_append.mp hmem with h1 | h2
      · have hne3 : p.id ≠ p0.id := fun he =>
          hpid (he ▸ List.mem_map.mpr ⟨p0, hp0mem, rfl⟩)
        rcases stepPlayer_cases hstep with
          ⟨hout2, _⟩ | ⟨nr, nc, _, _, ⟨_, hout2⟩ | ⟨_, _, hout2⟩ | ⟨_, _, hout2⟩⟩
        · rw [show evs1 = [] from congrArg (fun x => x.2.2.1) hout2] at h1
          exact absurd h1 (by simp)
        · rw [show evs1 = [Event.collision [] (nr, nc)] from
            congrArg (fun x => x.2.2.1) hout2] at h1
          exact Event.noConfusion (List.mem_singleton.mp h1)
        · rw [show evs1 = [Event.move p.id (p.row, p.col) (nr, nc)] from
            congrArg (fun x => x.2.2.1) hout2] at h1
          have hmv := List.mem_singleton.mp h1
          injection hmv with hpid hfr ht
          exact hne3 hpid.symm
        · rw [show evs1 = [Event.blocked p.id (nr, nc)] from
            congrArg (fun x => x.2.2.1) hout2] at h1
          exact Event.noConfusion (List.mem_singleton.mp h1)
      · exact hnomove2 fr t h2

/-- A successful `resolveTurn` comes from a successful loop, and builds
the next state from its outputs. -/
theorem resolveTurn_ok_loop {s s1 : GameState} {evs : List Event}
    (h : resolveTurn s = Except.ok (s1, evs)) :
    ∃ players1 visited1 recMoves,
      resolveLoop (intendedOf s) (destCountOf (intendedOf s)) s.players s.visited
        = .ok (players1, visited1, evs, recMoves) ∧
      s1 = { s with
              players := players1
              visited := visited1
              history := s.history ++ [{ turn := s.turn, moves := recMoves }]
              pendingMoves := []
              turn := s.turn + 1
              phase := Phase.EVAL } := by
  unfold resolveTurn at h
  split at h
  · exact absurd h (by simp)
  · rename_i players1 visited1 events recMoves hloop
    have h2 := Except.ok.inj h
    have h3 : _ = s1 := congrArg Prod.fst h2
    have h4 : events = evs := congrArg Prod.snd h2
    subst h4
    exact ⟨players1, visited1, recMoves, hloop, h3.symm⟩

/-- C1 (amended): `resolveTurn` validates only that the destination cell
still reads EMPTY — for an ALIVE player whose pending destination does
not (an occupied cell, or a defined row with an out-of-range column),
whenever `resolveTurn` returns normally that intent is dropped: the
player's entry (row, col, score, everything) is unchanged, no `move`
event for that player is emitted, and all pending intents are cleared.
The knight-offset geometry is never checked at resolution (the
counterexample executes a non-knight move to an EMPTY cell), and an
uncontested intent with an out-of-bounds row raises an exception rather
than being silently dropped. -/
theorem resolveTurn_nonempty_dest_dropped (s : GameState)
    (hnd : (s.players.map (fun p => p.id)).Nodup)
    (s1 : GameState) (evs : List Event)
    (hok : resolveTurn s = Except.ok (s1, evs))
    (i : Nat) (p0 : Player) (d : Int × Int)
    (hp : s.players[i]? = some p0) (halive : statusAlive p0)
    (hint : mapGet s.pendingMoves p0.id = some d)
    (hne : readCell s.visited d.1 d.2 ≠ Except.ok (some CELL_EMPTY)) :
    s1.players[i]? = some p0 ∧
    (∀ fr t, Event.move p0.id fr t ∉ evs) ∧
    s1.pendingMoves = [] := by
  obtain ⟨players1, visited1, recMoves, hloop, hs1⟩ := resolveTurn_ok_loop hok
  have hint2 : mapGet (intendedOf s) p0.id = some d := by
    rw [mapGet_intendedOf s hnd (List.getElem?_mem hp) halive]
    exact hint
  obtain ⟨h1, h2⟩ := resolveLoop_nonempty_dest_unchanged d s.players s.visited
    (players1, visited1, evs, recMoves) hnd hloop hne i p0 hp halive hint2
  subst hs1
  exact ⟨h1, h2, rfl⟩

/-- Positions and scores of the roster, for concrete statements. -/
def playerSummary (s : GameState) : List (Int × Int × Nat) :=
  s.players.map (fun p => (p.row, p.col, p.score))

/-- The result of resolving Scenario A after player 0 submits the
destination `(4,5)`, which is not a knight offset from its cell `(1,1)`
but is EMPTY and in bounds. -/
def resolveIllegalA : Except Unit (List (Int × Int × Nat) × List Event) :=
  (resolveTurn (submitMove stateA 0 4 5)).map (fun r => (playerSummary r.1, r.2))

/-- Counterexample for C1: in Scenario A, `(4,5)` is not one of the 8
knight offsets from player 0's cell `(1,1)`, yet after submitting it
`resolveTurn` executes the move — player 0 ends at `(4,5)` with score 2
and a `move` event, instead of being left at `(1,1)` with score 1 as the
claim requires; and an intent with out-of-bounds row `(-1,0)` makes
`resolveTurn` raise (the JS `TypeError` on reading a missing grid row)
instead of dropping it silently. -/
theorem resolveTurn_illegal_executed :
    ((KNIGHT_MOVES.map (fun dd => ((1 : Int) + dd.1, (1 : Int) + dd.2))).contains
      ((4 : Int), (5 : Int))) = false ∧
    cellAt stateA.visited 4 5 = some CELL_EMPTY ∧
    playerSummary stateA = [(1, 1, 1), (6, 6, 1)] ∧
    resolveIllegalA = .ok ([(4, 5, 2), (6, 6, 1)], [Event.move 0 (1, 1) (4, 5)]) ∧
    (((4 : Int), (5 : Int), (2 : Nat)) ≠ ((1 : Int), (1 : Int), (1 : Nat))) ∧
    resolveTurn (submitMove stateA 0 (-1) 0) = Except.error () :=
  ⟨by decide, by decide, by decide, by decide, by decide, by decide⟩

/-- The resolution of Scenario A after player 0 submits the occupied
destination `(6,6)`. -/
def rBlockedA : GameState × List Event :=
  (resolveTurn (submitMove stateA 0 6 6)).toOption.getD (dummyState, [])

/-- Witness for the amended C1: submitting the non-EMPTY destination
`(6,6)` leaves player 0 untouched, yields no move event and clears the
pending intents. -/
theorem resolveTurn_nonempty_dest_dropped_witness :
    rBlockedA.1.players[0]? = some
      { id := 0, isHuman := true, status := PStatus.ALIVE, row := 1, col := 1,
        score := 1, aiStrategy := none } ∧
    Event.move 0 (1, 1) (2, 3) ∉ rBlockedA.2 ∧
    rBlockedA.1.pendingMoves = [] := by
  have h := resolveTurn_nonempty_dest_dropped (submitMove stateA 0 6 6) (by decide)
    rBlockedA.1 rBlockedA.2 rfl 0
    { id := 0, isHuman := true, status := PStatus.ALIVE, row := 1, col := 1,
      score := 1, aiStrategy := none }
    (6, 6) (by decide) (by decide) (by decide) (by decide)
  exact ⟨h.1, h.2.1 (1, 1) (2, 3), h.2.2⟩

/-! ### C2: collisions -/

/-- The number of ALIVE players whose pending intent targets `d`. -/
def aliveTargeting (s : GameState) (d : Int × Int) : Nat :=
  ((s.players.filter statusAlive).filter
    (fun p => mapGet s.pendingMoves p.id == some d)).length

theorem destCount_filterMap (pm : List (Nat × (Int × Int))) (d : Int × Int) :
    ∀ l : List Player,
      ((l.filterMap (fun p => (mapGet pm p.id).map (fun mv => (p.id, mv)))).filter
        (fun kv => kv.2 == d)).length
      = (l.filter (fun p => mapGet pm p.id == some d)).length := by
  intro l
  induction l with
  | nil => rfl
  | cons q rest ih =>
    cases hmv : mapGet pm q.id with
    | none =>
      simp only [List.filterMap_cons, hmv, Option.map_none', List.filter_cons]
      rw [if_neg (by simp)]
      exact ih
    | some mv =>
      simp only [List.filterMap_cons, hmv, Option.map_some', List.filter_cons]
      by_cases hd : mv = d
      · subst hd
        rw [if_pos (by simp), if_pos (by simp)]
        simpa using ih
      · rw [if_neg (by simp [hd]), if_neg (by simp [hd])]
        exact ih

/-- Under distinct ids, the `destCount` tally of a square is the number
of ALIVE players whose pending intent targets it. -/
theorem destCountOf_eq_aliveTargeting (s : GameState)
    (hnd : (s.players.map (fun p => p.id)).Nodup) (d : Int × Int) :
    destCountOf (intendedOf s) d = aliveTargeting s d := by
  unfold destCountOf aliveTargeting
  rw [intendedOf_eq_simple s hnd]
  unfold intendedSimple
  exact destCount_filterMap s.pendingMoves d (s.players.filter statusAlive)

/-- With the tally of `d` above 1, the loop emits one collision event for
`d` per processed ALIVE player targeting `d`. -/
theorem resolveLoop_collision_count {intended : List (Nat × (Int × Int))}
    {dc : (Int × Int) → Nat} (d : Int × Int) (hdc : dc d > 1) :
    ∀ (ps : List Player) (vis : List (List Nat))
      (out : List Player × List (List Nat) × List Event × List TurnMove),
      resolveLoop intended dc ps vis = .ok out →
      (out.2.2.1.filter (fun e => e == Event.collision [] d)).length
        = (ps.filter (fun p =>
            statusAlive p && (mapGet intended p.id == some d))).length := by
  intro ps
  induction ps with
  | nil =>
    intro vis out h
    rw [resolveLoop_nil_ok h]
    rfl
  | cons p rest ih =>
    intro vis out h
    obtain ⟨p1, vis2, evs1, recs1, ps2, v, evs2, recs2, hstep, hrec, hout⟩ :=
      resolveLoop_cons_ok h
    have hevs : out.2.2.1 = evs1 ++ evs2 := congrArg (fun x => x.2.2.1) hout
    have hih := ih vis2 (ps2, v, evs2, recs2) hrec
    rw [hevs, List.filter_append, List.length_append, List.filter_cons]
    rcases stepPlayer_cases hstep with
      ⟨hout2, hdead⟩ | ⟨nr, nc, halive, hsome,
        ⟨hc, hout2⟩ | ⟨hc, hemp, hout2⟩ | ⟨hc, hbl, hout2⟩⟩
    · have he1 : evs1 = [] := congrArg (fun x => x.2.2.1) hout2
      have hpred : (statusAlive p && (mapGet intended p.id == some d)) = false := by
        rcases hdead with hf | hn
        · simp [hf]
        · simp [hn]
      rw [he1, hpred]
      simpa using hih
    · have he1 : evs1 = [Event.collision [] (nr, nc)] :=
        congrArg (fun x => x.2.2.1) hout2
      by_cases hd : (nr, nc) = d
      · subst hd
        have hpred : (statusAlive p && (mapGet intended p.id == some (nr, nc))) = true := by
          simp [halive, hsome]
        rw [he1, hpred]
        simp only [List.filter_cons, List.filter_nil]
        rw [show ((Event.collision [] (nr, nc) == Event.collision [] (nr, nc)) = true) by simp]
        simpa [Nat.add_comm] using hih
      · have hpred : (statusAlive p && (mapGet intended p.id == some d)) = false := by
          simp [hsome, hd]
        rw [he1, hpred]
        simp only [List.filter_cons, List.filter_nil]
        rw [show ((Event.collision [] (nr, nc) == Event.collision [] d) = false) by
          simp [hd]]
        simpa using hih
    · have he1 : evs1 = [Event.move p.id (p.row, p.col) (nr, nc)] :=
        congrArg (fun x => x.2.2.1) hout2
      have hd : (nr, nc) ≠ d := fun he => hc (he ▸ hdc)
      have hpred : (statusAlive p && (mapGet intended p.id == some d)) = false := by
        simp [hsome, hd]
      rw [he1, hpred]
      simp only [List.filter_cons, List.filter_nil]
      rw [show ((Event.move p.id (p.row, p.col) (nr, nc) == Event.collision [] d)
        = false) by simp]
      simpa using hih
    · have he1 : evs1 = [Event.blocked p.id (nr, nc)] :=
        congrArg (fun x => x.2.2.1) hout2
      have hd : (nr, nc) ≠ d := fun he => hc (he ▸ hdc)
      have hpred : (statusAlive p && (mapGet intended p.id == some d)) = false := by
        simp [hsome, hd]
      rw [he1, hpred]
      simp only [List.filter_cons, List.filter_nil]
      rw [show ((Event.blocked p.id (nr, nc) == Event.collision [] d) = false) by simp]
      simpa using hih

/-- With the tally of `d` above 1, every ALIVE player targeting `d` is
left exactly as it was. -/
theorem resolveLoop_collision_unchanged {intended : List (Nat × (Int × Int))}
    {dc : (Int × Int) → Nat} (d : Int × Int) (hdc : dc d > 1) :
    ∀ (ps : List Player) (vis : List (List Nat))
      (out : List Player × List (List Nat) × List Event × List TurnMove),
      resolveLoop intended dc ps vis = .ok out →
      ∀ (i : Nat) (p0 : Player), ps[i]? = some p0 → statusAlive p0 →
        mapGet intended p0.id = some d → out.1[i]? = some p0 := by
  intro ps
  induction ps with
  | nil =>
    intro vis out _ i p0 hp
    exact absurd hp (by simp)
  | cons p rest ih =>
    intro vis out h i p0 hp halive hint
    obtain ⟨p1, vis2, evs1, recs1, ps2, v, evs2, recs2, hstep, hrec, hout⟩ :=
      resolveLoop_cons_ok h
    have hps : out.1 = p1 :: ps2 := congrArg (fun x => x.1) hout
    cases i with
    | zero =>
      obtain rfl : p0 = p := by
        rw [List.getElem?_cons_zero] at hp
        exact (Option.some.inj hp).symm
      rcases stepPlayer_cases hstep with
        ⟨hout2, hdead⟩ | ⟨nr, nc, _, hsome,
          ⟨_, hout2⟩ | ⟨hc, _, hout2⟩ | ⟨hc, _, hout2⟩⟩
      · rcases hdead with hf | hn
        · rw [halive] at hf; exact absurd hf (by simp)
        · rw [hint] at hn; exact absurd hn (by simp)
      · have hp1 : p1 = p0 := congrArg (fun x => x.1) hout2
        rw [hps, List.getElem?_cons_zero, hp1]
      · obtain rfl : (nr, nc) = d := Option.some.inj (hsome ▸ hint)
        exact absurd hdc hc
      · obtain rfl : (nr, nc) = d := Option.some.inj (hsome ▸ hint)
        exact absurd hdc hc
    | succ j =>
      rw [List.getElem?_cons_succ] at hp
      rw [hps, List.getElem?_cons_succ]
      exact ih vis2 (ps2, v, evs2, recs2) hrec j p0 hp halive hint

/-- C2 (amended): when two or more ALIVE players have pending intents
with the same destination `d` and `resolveTurn` returns normally, it
emits exactly one collision event for `d` per colliding player (so
`aliveTargeting s d` of them, not one in total), performs no move for any
of them (each keeps its entire player record), and the resulting phase is
EVALUATE. -/
theorem resolveTurn_collision (s : GameState)
    (hnd : (s.players.map (fun p => p.id)).Nodup)
    (s1 : GameState) (evs : List Event)
    (hok : resolveTurn s = Except.ok (s1, evs))
    (d : Int × Int) (hcnt : 2 ≤ aliveTargeting s d) :
    (evs.filter (fun e => e == Event.collision [] d)).length = aliveTargeting s d ∧
    (∀ (i : Nat) (p0 : Player), s.players[i]? = some p0 → statusAlive p0 →
      mapGet s.pendingMoves p0.id = some d → s1.players[i]? = some p0) ∧
    s1.phase = Phase.EVAL := by
  obtain ⟨players1, visited1, recMoves, hloop, hs1⟩ := resolveTurn_ok_loop hok
  have hdc : destCountOf (intendedOf s) d > 1 := by
    rw [destCountOf_eq_aliveTargeting s hnd d]
    omega
  refine ⟨?_, ?_, by rw [hs1]⟩
  · have hcount := resolveLoop_collision_count d hdc s.players s.visited
      (players1, visited1, evs, recMoves) hloop
    rw [hcount]
    unfold aliveTargeting
    rw [List.filter_filter]
    apply congrArg
    apply List.filter_congr
    intro p hpmem
    by_cases halive : statusAlive p
    · rw [mapGet_intendedOf s hnd hpmem halive]
      exact Bool.and_comm _ _
    · simp [show statusAlive p = false by simpa using halive]
  · intro i p0 hp halive hint
    have hint2 : mapGet (intendedOf s) p0.id = some d := by
      rw [mapGet_intendedOf s hnd (List.getElem?_mem hp) halive]
      exact hint
    have h1 := resolveLoop_collision_unchanged d hdc s.players s.visited
      (players1, visited1, evs, recMoves) hloop i p0 hp halive hint2
    rw [hs1]
    exact h1

/-- The collision round of Scenario B: both Scenario A players submit
the destination `(3,2)`. -/
def rCollideA : GameState × List Event :=
  (resolveTurn (submitMove (submitMove stateA 0 3 2) 1 3 2)).toOption.getD
    (dummyState, [])

/-- Counterexample for C2: when both players submit `(3,2)`,
`resolveTurn` emits TWO collision events for that square (one per
colliding player), not exactly one; positions, scores and the EVALUATE
phase do behave as claimed. -/
theorem resolveTurn_collision_two_events :
    rCollideA.2 = [Event.collision [] (3, 2), Event.collision [] (3, 2)] ∧
    (rCollideA.2.filter
      (fun e => e == Event.collision [] ((3 : Int), (2 : Int)))).length = 2 ∧
    (2 : Nat) ≠ 1 ∧
    playerSummary rCollideA.1 = playerSummary stateA ∧
    rCollideA.1.phase = Phase.EVAL :=
  ⟨by decide, by decide, by decide, by decide, by decide⟩

/-- Witness for the amended C2 on the Scenario B instance. -/
theorem resolveTurn_collision_witness :
    (rCollideA.2.filter
      (fun e => e == Event.collision [] ((3 : Int), (2 : Int)))).length
      = aliveTargeting (submitMove (submitMove stateA 0 3 2) 1 3 2) (3, 2) ∧
    rCollideA.1.players[0]? = some
      { id := 0, isHuman := true, status := PStatus.ALIVE, row := 1, col := 1,
        score := 1, aiStrategy := none } ∧
    rCollideA.1.phase = Phase.EVAL := by
  have h := resolveTurn_collision (submitMove (submitMove stateA 0 3 2) 1 3 2)
    (by decide) rCollideA.1 rCollideA.2 rfl (3, 2) (by decide)
  exact ⟨h.1, h.2.1 0
    { id := 0, isHuman := true, status := PStatus.ALIVE, row := 1, col := 1,
      score := 1, aiStrategy := none } (by decide) (by decide) (by decide),
    h.2.2⟩

/-! ### C10: submissions for absent or dead players -/

/-- Whether an event names the given player id (collision events carry
an always-empty `players` list in the source, so they name nobody). -/
def eventMentions (pid : Nat) : Event → Bool
  | Event.move q _ _ => q == pid
  | Event.blocked q _ => q == pid
  | Event.collision qs _ => qs.contains pid
  | Event.elimination q _ => q == pid
  | Event.winner q => q == pid

theorem mapGet_map_subst_self {α : Type} {k : Nat} (v : α) :
    ∀ m : List (Nat × α), (m.any (fun kv => kv.1 == k)) = true →
      mapGet (m.map (fun kv => if kv.1 == k then (k, v) else kv)) k = some v := by
  intro m
  induction m with
  | nil => intro hk; simp at hk
  | cons kv rest ih =>
    intro hk
    obtain ⟨k1, v1⟩ := kv
    simp only [List.map_cons]
    by_cases h1 : (k1 == k) = true
    · rw [if_pos h1, mapGet_cons, if_pos (by simp)]
    · rw [if_neg h1, mapGet_cons, if_neg h1]
      apply ih
      simp only [List.any_cons] at hk
      rcases Bool.or_eq_true_iff.mp hk with h2 | h2
      · exact absurd h2 h1
      · exact h2

theorem mapGet_append_single_self {α : Type} {k : Nat} (v : α) :
    ∀ m : List (Nat × α), (∀ kv ∈ m, ¬ (kv.1 == k) = true) →
      mapGet (m ++ [(k, v)]) k = some v := by
  intro m
  induction m with
  | nil =>
    intro _
    rw [List.nil_append, mapGet_cons, if_pos (by simp)]
  | cons kv rest ih =>
    intro hk
    obtain ⟨k1, v1⟩ := kv
    rw [List.cons_append, mapGet_cons,
      if_neg (hk (k1, v1) (List.mem_cons_self _ _))]
    exact ih (fun kv2 h2 => hk kv2 (List.mem_cons_of_mem _ h2))

theorem mapGet_mapSet_self {α : Type} (m : List (Nat × α)) (k : Nat) (v : α) :
    mapGet (mapSet m k v) k = some v := by
  unfold mapSet mapHasKey
  split
  case isTrue hk => exact mapGet_map_subst_self v m hk
  case isFalse hk =>
    apply mapGet_append_single_self v m
    intro kv hkv hbeq
    exact hk (List.any_eq_true.mpr ⟨kv, hkv, hbeq⟩)

theorem mapGet_map_subst_ne {α : Type} {k kp : Nat} (h : kp ≠ k) (v : α) :
    ∀ m : List (Nat × α),
      mapGet (m.map (fun kv => if kv.1 == k then (k, v) else kv)) kp = mapGet m kp := by
  intro m
  induction m with
  | nil => rfl
  | cons kv rest ih =>
    obtain ⟨k1, v1⟩ := kv
    simp only [List.map_cons]
    by_cases h1 : (k1 == k) = true
    · have h1e : k1 = k := by simpa using h1
      rw [if_pos h1, mapGet_cons, mapGet_cons]
      rw [if_neg (show ¬ (k == kp) = true by
        simp only [beq_iff_eq]; exact fun he => h he.symm)]
      rw [if_neg (show ¬ (k1 == kp) = true by
        simp only [beq_iff_eq]; exact fun he => h (he ▸ h1e))]
      exact ih
    · rw [if_neg h1, mapGet_cons, mapGet_cons]
      split
      · rfl
      · exact ih

theorem mapGet_append_single_ne {α : Type} {k kp : Nat} (h : kp ≠ k) (v : α) :
    ∀ m : List (Nat × α), mapGet (m ++ [(k, v)]) kp = mapGet m kp := by
  intro m
  induction m with
  | nil =>
    rw [List.nil_append, mapGet_cons, if_neg (show ¬ (k == kp) = true by
      simp only [beq_iff_eq]; exact fun he => h he.symm)]
  | cons kv rest ih =>
    obtain ⟨k1, v1⟩ := kv
    rw [List.cons_append, mapGet_cons, mapGet_cons]
    split
    · rfl
    · exact ih

theorem mapGet_mapSet_ne {α : Type} (m : List (Nat × α)) (k kp : Nat) (v : α)
    (h : kp ≠ k) : mapGet (mapSet m k v) kp = mapGet m kp := by
  unfold mapSet
  split
  · exact mapGet_map_subst_ne h v m
  · exact mapGet_append_single_ne h v m

theorem foldl_congr_mem {α β : Type} {f g : β → α → β} {l : List α}
    (h : ∀ (b : β) (a : α), a ∈ l → f b a = g b a) :
    ∀ b0, l.foldl f b0 = l.foldl g b0 := by
  induction l with
  | nil => intro b0; rfl
  | cons a rest ih =>
    intro b0
    rw [List.foldl_cons, List.foldl_cons, h b0 a (List.mem_cons_self _ _)]
    exact ih (fun b a2 ha2 => h b a2 (List.mem_cons_of_mem _ ha2)) _

/-- A pending intent recorded for a player that is absent or not ALIVE is
invisible to the `intended` map. -/
theorem intendedOf_submit_dead (s : GameState) (pid : Nat) (r c : Int)
    (hdead : ∀ p ∈ s.players, p.id = pid → statusAlive p = false) :
    intendedOf (submitMove s pid r c) = intendedOf s := by
  unfold intendedOf
  apply foldl_congr_mem
  intro m p hp
  have hpmem : p ∈ s.players := (List.mem_filter.mp hp).1
  have hpal : statusAlive p := (List.mem_filter.mp hp).2
  have hpne : p.id ≠ pid := fun he => by
    rw [hdead p hpmem he] at hpal
    exact Bool.noConfusion hpal
  unfold intendedFold
  rw [show (submitMove s pid r c).pendingMoves = mapSet s.pendingMoves pid (r, c)
    from rfl]
  rw [mapGet_mapSet_ne s.pendingMoves pid p.id (r, c) hpne]

/-- Every event emitted by the loop that names a player names an ALIVE
processed player. -/
theorem resolveLoop_mentions {intended : List (Nat × (Int × Int))}
    {dc : (Int × Int) → Nat} (pid : Nat) :
    ∀ (ps : List Player) (vis : List (List Nat))
      (out : List Player × List (List Nat) × List Event × List TurnMove),
      resolveLoop intended dc ps vis = .ok out →
      ∀ e ∈ out.2.2.1, eventMentions pid e = true →
        pid ∈ (ps.filter statusAlive).map (fun p => p.id) := by
  intro ps
  induction ps with
  | nil =>
    intro vis out h e hmem
    rw [resolveLoop_nil_ok h] at hmem
    exact absurd hmem (by simp)
  | cons p rest ih =>
    intro vis out h e hmem hment
    obtain ⟨p1, vis2, evs1, recs1, ps2, v, evs2, recs2, hstep, hrec, hout⟩ :=
      resolveLoop_cons_ok h
    have hevs : out.2.2.1 = evs1 ++ evs2 := congrArg (fun x => x.2.2.1) hout
    rw [hevs] at hmem
    have hrest : pid ∈ (rest.filter statusAlive).map (fun p => p.id) →
        pid ∈ ((p :: rest).filter statusAlive).map (fun p => p.id) := by
      intro hmem2
      rw [List.filter_cons]
      split
      · exact List.mem_cons_of_mem _ hmem2
      · exact hmem2
    rcases List.mem_append.mp hmem with h1 | h2
    · rcases stepPlayer_cases hstep with
        ⟨hout2, _⟩ | ⟨nr, nc, halive, _, ⟨_, hout2⟩ | ⟨_, _, hout2⟩ | ⟨_, _, hout2⟩⟩
      · rw [show evs1 = [] from congrArg (fun x => x.2.2.1) hout2] at h1
        exact absurd h1 (by simp)
      · rw [show evs1 = [Event.collision [] (nr, nc)] from
          congrArg (fun x => x.2.2.1) hout2] at h1
        obtain rfl := List.mem_singleton.mp h1
        exact absurd hment (by simp [eventMentions])
      · rw [show evs1 = [Event.move p.id (p.row, p.col) (nr, nc)] from
          congrArg (fun x => x.2.2.1) hout2] at h1
        obtain rfl := List.mem_singleton.mp h1
        have hpp : p.id = pid := by simpa [eventMentions] using hment
        rw [List.filter_cons, if_pos halive]
        exact List.mem_map.mpr ⟨p, List.mem_cons_self _ _, hpp⟩
      · rw [show evs1 = [Event.blocked p.id (nr, nc)] from
          congrArg (fun x => x.2.2.1) hout2] at h1
        obtain rfl := List.mem_singleton.mp h1
        have hpp : p.id = pid := by simpa [eventMentions] using hment
        rw [List.filter_cons, if_pos halive]
        exact List.mem_map.mpr ⟨p, List.mem_cons_self _ _, hpp⟩
    · exact hrest (ih vis2 (ps2, v, evs2, recs2) hrec e h2 hment)

/-- A player that is not ALIVE is never touched by the loop. -/
theorem resolveLoop_dead_unchanged {intended : List (Nat × (Int × Int))}
    {dc : (Int × Int) → Nat} :
    ∀ (ps : List Player) (vis : List (List Nat))
      (out : List Player × List (List Nat) × List Event × List TurnMove),
      resolveLoop intended dc ps vis = .ok out →
      ∀ (i : Nat) (p0 : Player), ps[i]? = some p0 → statusAlive p0 = false →
        out.1[i]? = some p0 := by
  intro ps
  induction ps with
  | nil =>
    intro vis out _ i p0 hp
    exact absurd hp (by simp)
  | cons p rest ih =>
    intro vis out h i p0 hp hdead
    obtain ⟨p1, vis2, evs1, recs1, ps2, v, evs2, recs2, hstep, hrec, hout⟩ :=
      resolveLoop_cons_ok h
    have hps : out.1 = p1 :: ps2 := congrArg (fun x => x.1) hout
    cases i with
    | zero =>
      obtain rfl : p0 = p := by
        rw [List.getElem?_cons_zero] at hp
        exact (Option.some.inj hp).symm
      rcases stepPlayer_cases hstep with
        ⟨hout2, _⟩ | ⟨nr, nc, halive, _, _⟩
      · have hp1 : p1 = p0 := congrArg (fun x => x.1) hout2
        rw [hps, List.getElem?_cons_zero, hp1]
      · rw [hdead] at halive
        exact Bool.noConfusion halive
    | succ j =>
      rw [List.getElem?_cons_succ] at hp
      rw [hps, List.getElem?_cons_succ]
      exact ih vis2 (ps2, v, evs2, recs2) hrec j p0 hp hdead

/-- C10: if no player with id `pid` is ALIVE (the player is absent or
ELIMINATED/WINNER), `submitMove` still records the pending intent for
`pid`, but resolution ignores it entirely: `resolveTurn` after the
submission is identical to `resolveTurn` without it (so the intent is
not counted in any tally), and on a normal return no emitted event names
`pid`, any player with id `pid` keeps its exact record (row, col,
score), and all pending intents are cleared. -/
theorem submitMove_dead_ignored (s : GameState) (pid : Nat) (r c : Int)
    (hdead : ∀ p ∈ s.players, p.id = pid → statusAlive p = false) :
    mapGet (submitMove s pid r c).pendingMoves pid = some (r, c) ∧
    resolveTurn (submitMove s pid r c) = resolveTurn s ∧
    (∀ s1 evs, resolveTurn (submitMove s pid r c) = Except.ok (s1, evs) →
      s1.pendingMoves = [] ∧
      (∀ e ∈ evs, eventMentions pid e = false) ∧
      (∀ (i : Nat) (p0 : Player), s.players[i]? = some p0 → p0.id = pid →
        s1.players[i]? = some p0)) := by
  have heq : resolveTurn (submitMove s pid r c) = resolveTurn s := by
    unfold resolveTurn
    rw [intendedOf_submit_dead s pid r c hdead]
    rfl
  refine ⟨mapGet_mapSet_self s.pendingMoves pid (r, c), heq, ?_⟩
  intro s1 evs hok
  rw [heq] at hok
  obtain ⟨players1, visited1, recMoves, hloop, hs1⟩ := resolveTurn_ok_loop hok
  refine ⟨by rw [hs1], ?_, ?_⟩
  · intro e hmem
    rcases hb : eventMentions pid e with h | h
    · rfl
    · exfalso
      have hmem2 := resolveLoop_mentions pid s.players s.visited
        (players1, visited1, evs, recMoves) hloop e hmem hb
      obtain ⟨q, hq, hqid⟩ := List.mem_map.mp hmem2
      have hqmem : q ∈ s.players := (List.mem_filter.mp hq).1
      have hqal : statusAlive q := (List.mem_filter.mp hq).2
      rw [hdead q hqmem hqid] at hqal
      exact Bool.noConfusion hqal
  · intro i p0 hp hpid
    have h1 := resolveLoop_dead_unchanged s.players s.visited
      (players1, visited1, evs, recMoves) hloop i p0 hp
      (hdead p0 (List.getElem?_mem hp) hpid)
    rw [hs1]
    exact h1

/-- Scenario A with an absent player id 5 submitting `(3,3)`. -/
def rDeadA : Except Unit (GameState × List Event) :=
  resolveTurn (submitMove stateA 5 3 3)

/-- Witness for C10 on Scenario A with absent id 5. -/
theorem submitMove_dead_ignored_witness :
    mapGet (submitMove stateA 5 3 3).pendingMoves 5 = some (3, 3) ∧
    rDeadA = resolveTurn stateA ∧
    ((rDeadA.toOption.getD (dummyState, [])).1.pendingMoves = [] ∧
      (rDeadA.toOption.getD (dummyState, [])).2 = []) := by
  have h := submitMove_dead_ignored stateA 5 3 3 (by decide)
  refine ⟨h.1, h.2.1, ?_⟩
  have h3 := h.2.2 (rDeadA.toOption.getD (dummyState, [])).1
    (rDeadA.toOption.getD (dummyState, [])).2 rfl
  exact ⟨h3.1, by decide⟩

/-! ### C6: evaluation, elimination and the win condition -/

theorem elimPass_getElem? (s : GameState) (i : Nat) :
    (elimPass s)[i]? = (s.players[i]?).map (fun p =>
      if statusAlive p && noMoves s p then { p with status := PStatus.ELIMINATED }
      else p) := by
  unfold elimPass
  exact List.getElem?_map _ _ _

/-- The survivors of the elimination pass are exactly the ALIVE players
that still have a legal move. -/
theorem stillAliveOf_eq (s : GameState) :
    stillAliveOf s = s.players.filter (fun p => statusAlive p && ! noMoves s p) := by
  unfold stillAliveOf elimPass
  induction s.players with
  | nil => rfl
  | cons p rest ih =>
    rw [List.map_cons, List.filter_cons, List.filter_cons]
    by_cases h1 : (statusAlive p && noMoves s p) = true
    · rw [if_pos h1]
      have hn : noMoves s p = true := (Bool.and_eq_true_iff.mp h1).2
      rw [if_neg (by simp [statusAlive]), if_neg (by simp [hn])]
      exact ih
    · rw [if_neg h1]
      by_cases h2 : statusAlive p = true
      · have hn : noMoves s p = false := by
          rcases Bool.and_eq_false_iff.mp (by simpa using h1) with h3 | h3
          · rw [h2] at h3; exact Bool.noConfusion h3
          · exact h3
        rw [if_pos h2, if_pos (by simp [h2, hn])]
        rw [ih]
      · rw [if_neg h2, if_neg (by simp [show statusAlive p = false by simpa using h2])]
        exact ih

/-- Elimination does not change scores, so the maximum is over the
original roster's scores. -/
theorem maxScoreOf_eq (s : GameState) :
    maxScoreOf s = (s.players.map (fun p => p.score)).maximum := by
  unfold maxScoreOf elimPass
  rw [List.map_map]
  apply congrArg
  apply List.map_congr_left
  intro p _
  simp only [Function.comp]
  split <;> rfl

theorem elim_event_mem (s : GameState) {p : Player} (hp : p ∈ s.players)
    (halive : statusAlive p) (hnm : noMoves s p) :
    Event.elimination p.id p.score ∈ elimEventsOf s := by
  unfold elimEventsOf
  exact List.mem_filterMap.mpr ⟨p, List.mem_filter.mpr ⟨hp, halive⟩, by rw [if_pos hnm]⟩

theorem elim_event_inv (s : GameState) {pid sc : Nat}
    (h : Event.elimination pid sc ∈ elimEventsOf s) :
    ∃ p ∈ s.players, statusAlive p ∧ noMoves s p ∧ p.id = pid ∧ p.score = sc := by
  unfold elimEventsOf at h
  obtain ⟨p, hp, hev⟩ := List.mem_filterMap.mp h
  have hmem : p ∈ s.players := (List.mem_filter.mp hp).1
  have halive : statusAlive p := (List.mem_filter.mp hp).2
  by_cases hnm : noMoves s p = true
  · rw [if_pos hnm] at hev
    obtain ⟨hid, hsc⟩ : p.id = pid ∧ p.score = sc := by
      injection Option.some.inj hev with h1 h2
      exact ⟨h1, h2⟩
    exact ⟨p, hmem, halive, hnm, hid, hsc⟩
  · rw [if_neg hnm] at hev
    exact absurd hev (by simp)

/-- C6: `evaluateState` eliminates every ALIVE player with zero legal
moves — in the returned roster its status is ELIMINATED (only the
mutual-elimination branch can afterwards overwrite it with WINNER when
its score is maximal) — emitting one elimination event with its score
(and only such events); afterwards, if exactly one player remains ALIVE
it becomes WINNER with a winner event and phase GAMEOVER; if zero remain
ALIVE every player whose score equals the maximum score over all players
becomes WINNER with one winner event each and phase GAMEOVER; otherwise
the phase is SELECT and the returned roster is exactly the input roster
with the stuck ALIVE players set to ELIMINATED. -/
theorem evaluateState_spec (s : GameState) :
    stillAliveOf s = s.players.filter (fun p => statusAlive p && ! noMoves s p) ∧
    maxScoreOf s = (s.players.map (fun p => p.score)).maximum ∧
    (∀ p ∈ s.players, statusAlive p → noMoves s p →
      Event.elimination p.id p.score ∈ (evaluateState s).2) ∧
    (∀ pid sc, Event.elimination pid sc ∈ (evaluateState s).2 →
      ∃ p ∈ s.players, statusAlive p ∧ noMoves s p ∧ p.id = pid ∧ p.score = sc) ∧
    ((stillAliveOf s).length = 1 →
      (evaluateState s).1.phase = Phase.GAMEOVER ∧
      (∀ (i : Nat) (p0 : Player), s.players[i]? = some p0 → statusAlive p0 →
        ¬ noMoves s p0 →
        (evaluateState s).1.players[i]? =
          some { p0 with status := PStatus.WINNER } ∧
        Event.winner p0.id ∈ (evaluateState s).2)) ∧
    ((stillAliveOf s).length = 0 →
      (evaluateState s).1.phase = Phase.GAMEOVER ∧
      (∀ (i : Nat) (p0 : Player), s.players[i]? = some p0 →
        maxScoreOf s = some p0.score →
        (∃ p1, (evaluateState s).1.players[i]? = some p1 ∧
          p1.status = PStatus.WINNER ∧ p1.score = p0.score ∧ p1.id = p0.id) ∧
        Event.winner p0.id ∈ (evaluateState s).2)) ∧
    (2 ≤ (stillAliveOf s).length →
      (evaluateState s).1.phase = Phase.SELECT ∧
      (∀ (i : Nat) (p0 : Player), s.players[i]? = some p0 →
        (evaluateState s).1.players[i]? = some
          (if statusAlive p0 && noMoves s p0
           then { p0 with status := PStatus.ELIMINATED } else p0))) ∧
    (∀ (i : Nat) (p0 : Player), s.players[i]? = some p0 → statusAlive p0 →
      noMoves s p0 →
      (evaluateState s).1.players[i]? = some
        (if (stillAliveOf s).length = 0 ∧ maxScoreOf s = some p0.score
         then { p0 with status := PStatus.WINNER }
         else { p0 with status := PStatus.ELIMINATED })) := by
  refine ⟨stillAliveOf_eq s, maxScoreOf_eq s, ?_, ?_, ?_, ?_, ?_, ?_⟩
  · -- elimination completeness
    intro p hp halive hnm
    have hmem := elim_event_mem s hp halive hnm
    unfold evaluateState
    split
    · split
      · exact List.mem_append_left _ hmem
      · exact List.mem_append_left _ hmem
    · exact hmem
  · -- elimination soundness
    intro pid sc hmem
    unfold evaluateState at hmem
    split at hmem
    · split at hmem
      · rcases List.mem_append.mp hmem with h1 | h1
        · exact elim_event_inv s h1
        · exact absurd (List.mem_singleton.mp h1) (by simp)
      · rcases List.mem_append.mp hmem with h1 | h1
        · exact elim_event_inv s h1
        · obtain ⟨q, _, hev⟩ := List.mem_filterMap.mp h1
          split at hev
          · exact absurd (Option.some.inj hev) (by simp)
          · exact absurd hev (by simp)
    · exact elim_event_inv s hmem
  · -- exactly one survivor
    intro hone
    unfold evaluateState
    rw [if_pos (by omega), if_pos hone]
    refine ⟨rfl, ?_⟩
    intro i p0 hp halive hmoves
    have hnm : noMoves s p0 = false := by simpa using hmoves
    have hsurv : p0 ∈ stillAliveOf s := by
      rw [stillAliveOf_eq s]
      exact List.mem_filter.mpr ⟨List.getElem?_mem hp, by simp [halive, hnm]⟩
    obtain ⟨w, hw⟩ := List.length_eq_one.mp hone
    have hp0w : p0 = w := by
      rw [hw] at hsurv
      exact List.mem_singleton.mp hsurv
    have hcond : ¬ ((statusAlive p0 && noMoves s p0) = true) := by
      rw [hnm, Bool.and_false]
      simp
    constructor
    · rw [List.getElem?_map, elimPass_getElem?, hp]
      simp only [Option.map_some']
      rw [if_neg hcond, if_pos halive]
    · refine List.mem_append_right _ ?_
      rw [hw]
      simp only [List.headD_cons]
      rw [hp0w]
      exact List.mem_singleton.mpr rfl
  · -- zero survivors
    intro hzero
    unfold evaluateState
    rw [if_pos (by omega), if_neg (by omega)]
    refine ⟨rfl, ?_⟩
    intro i p0 hp hmax
    have hget : (elimPass s)[i]? = some (if statusAlive p0 && noMoves s p0
        then { p0 with status := PStatus.ELIMINATED } else p0) := by
      rw [elimPass_getElem?, hp]
      rfl
    have hscore : (if statusAlive p0 && noMoves s p0
        then { p0 with status := PStatus.ELIMINATED } else p0).score = p0.score := by
      split <;> rfl
    have hid : (if statusAlive p0 && noMoves s p0
        then { p0 with status := PStatus.ELIMINATED } else p0).id = p0.id := by
      split <;> rfl
    constructor
    · refine ⟨{ (if statusAlive p0 && noMoves s p0
          then { p0 with status := PStatus.ELIMINATED } else p0) with
          status := PStatus.WINNER }, ?_, rfl, hscore, hid⟩
      rw [List.getElem?_map, hget]
      simp only [Option.map_some']
      rw [if_pos (by rw [hscore]; exact hmax)]
    · refine List.mem_append_right _ ?_
      refine List.mem_filterMap.mpr ⟨(if statusAlive p0 && noMoves s p0
        then { p0 with status := PStatus.ELIMINATED } else p0),
        List.getElem?_mem hget, ?_⟩
      rw [if_pos (by rw [hscore]; exact hmax), hid]
  · -- two or more survivors: phase SELECT and roster = elimination pass
    intro htwo
    unfold evaluateState
    rw [if_neg (by omega)]
    refine ⟨rfl, ?_⟩
    intro i p0 hp
    show (elimPass s)[i]? = _
    rw [elimPass_getElem?, hp]
    rfl
  · -- every stuck ALIVE player is ELIMINATED in the returned roster
    -- (overwritten with WINNER only by the mutual-elimination branch)
    intro i p0 hp halive hnm
    have hcond : (statusAlive p0 && noMoves s p0) = true := by
      rw [halive, hnm]
      rfl
    have hget : (elimPass s)[i]?
        = some { p0 with status := PStatus.ELIMINATED } := by
      rw [elimPass_getElem?, hp]
      simp only [Option.map_some']
      rw [if_pos hcond]
    unfold evaluateState
    by_cases hzero : (stillAliveOf s).length = 0
    · rw [if_pos (by omega), if_neg (by omega)]
      by_cases hmax : maxScoreOf s = some p0.score
      · rw [if_pos ⟨hzero, hmax⟩]
        show ((elimPass s).map _)[i]? = _
        rw [List.getElem?_map, hget]
        simp only [Option.map_some']
        rw [if_pos hmax]
      · rw [if_neg (fun hc => hmax hc.2)]
        show ((elimPass s).map _)[i]? = _
        rw [List.getElem?_map, hget]
        simp only [Option.map_some']
        rw [if_neg hmax]
    · by_cases hone : (stillAliveOf s).length = 1
      · rw [if_pos (by omega), if_pos hone, if_neg (fun hc => hzero hc.1)]
        show ((elimPass s).map _)[i]? = _
        rw [List.getElem?_map, hget]
        simp only [Option.map_some']
        rw [if_neg (by simp [statusAlive])]
      · rw [if_neg (by omega), if_neg (fun hc => hzero hc.1)]
        exact hget

/-- A 3×3 end-game state: player 1 sits on the centre (no knight move
stays on a 3×3 board from there), player 0 at the corner still moves. -/
def sElim : GameState :=
  { boardSize := 3, seed := 7, turn := 4, phase := Phase.EVAL,
    players :=
      [{ id := 0, isHuman := true, status := PStatus.ALIVE, row := 0, col := 0,
         score := 2, aiStrategy := none },
       { id := 1, isHuman := false, status := PStatus.ALIVE, row := 1, col := 1,
         score := 3, aiStrategy := some "mobility" }],
    visited := [[1, 0, 0], [0, 1, 0], [0, 0, 0]], obstacles := [],
    pendingMoves := [], ruleset := defaultRules, rngX := 1, history := [] }

/-- Witness for C6: on `sElim`, player 1 is eliminated with score 3 and
its status in the returned roster is ELIMINATED, the sole survivor
player 0 becomes WINNER with a winner event and the phase is
GAMEOVER. -/
theorem evaluateState_spec_witness :
    Event.elimination 1 3 ∈ (evaluateState sElim).2 ∧
    (evaluateState sElim).1.phase = Phase.GAMEOVER ∧
    (evaluateState sElim).1.players[0]? = some
      { id := 0, isHuman := true, status := PStatus.WINNER, row := 0, col := 0,
        score := 2, aiStrategy := none } ∧
    (evaluateState sElim).1.players[1]? = some
      { id := 1, isHuman := false, status := PStatus.ELIMINATED, row := 1,
        col := 1, score := 3, aiStrategy := some "mobility" } ∧
    Event.winner 0 ∈ (evaluateState sElim).2 := by
  have h := evaluateState_spec sElim
  have helim := h.2.2.1
    { id := 1, isHuman := false, status := PStatus.ALIVE, row := 1, col := 1,
      score := 3, aiStrategy := some "mobility" }
    (by decide) (by decide) (by decide)
  have hone := h.2.2.2.2.1 (by decide)
  have hwin := hone.2 0
    { id := 0, isHuman := true, status := PStatus.ALIVE, row := 0, col := 0,
      score := 2, aiStrategy := none }
    (by decide) (by decide) (by decide)
  have hstuck := h.2.2.2.2.2.2.2 1
    { id := 1, isHuman := false, status := PStatus.ALIVE, row := 1, col := 1,
      score := 3, aiStrategy := some "mobility" }
    (by decide) (by decide) (by decide)
  refine ⟨helim, hone.1, hwin.1, ?_, hwin.2⟩
  rw [hstuck]
  rfl

/-! ### C4: the score invariant -/

/-- Whether an event is a `move` event of the given player. -/
def isMoveOf (pid : Nat) : Event → Bool
  | Event.move q _ _ => q == pid
  | _ => false

/-- The number of `move` events of which the player was the subject. -/
def countMovesFor (evs : List Event) (pid : Nat) : Nat :=
  (evs.filter (isMoveOf pid)).length

theorem countMovesFor_append (evs1 evs2 : List Event) (pid : Nat) :
    countMovesFor (evs1 ++ evs2) pid
      = countMovesFor evs1 pid + countMovesFor evs2 pid := by
  unfold countMovesFor
  rw [List.filter_append, List.length_append]

theorem countMovesFor_eq_zero {evs : List Event} {pid : Nat}
    (h : ∀ e ∈ evs, isMoveOf pid e = false) : countMovesFor evs pid = 0 := by
  unfold countMovesFor
  rw [List.length_eq_zero, List.filter_eq_nil_iff]
  intro e hmem
  rw [h e hmem]
  simp

theorem no_move_to_all_false {evs : List Event} {pid : Nat}
    (h : ∀ fr t, Event.move pid fr t ∉ evs) :
    ∀ e ∈ evs, isMoveOf pid e = false := by
  intro e hmem
  cases e with
  | move q fr t =>
    by_cases hq : q = pid
    · subst hq
      exact absurd hmem (h fr t)
    · simp [isMoveOf, hq]
  | collision qs sq => rfl
  | blocked q sq => rfl
  | elimination q sc => rfl
  | winner q => rfl

theorem countMovesFor_single_self (pid : Nat) (fr t : Int × Int) :
    countMovesFor [Event.move pid fr t] pid = 1 := by
  simp [countMovesFor, isMoveOf, List.filter_cons]

theorem countMovesFor_single_ne {pid q : Nat} (h : q ≠ pid) (fr t : Int × Int) :
    countMovesFor [Event.move q fr t] pid = 0 := by
  simp [countMovesFor, isMoveOf, List.filter_cons, h]

/-- The loop preserves the id sequence and increments each player's
score by exactly the number of `move` events it emitted for it. -/
theorem resolveLoop_score {intended : List (Nat × (Int × Int))}
    {dc : (Int × Int) → Nat} :
    ∀ (ps : List Player) (vis : List (List Nat))
      (out : List Player × List (List Nat) × List Event × List TurnMove),
      (ps.map (fun p => p.id)).Nodup →
      resolveLoop intended dc ps vis = .ok out →
      out.1.map (fun p => p.id) = ps.map (fun p => p.id) ∧
      ∀ (i : Nat) (p0 p1 : Player), ps[i]? = some p0 → out.1[i]? = some p1 →
        p1.score = p0.score + countMovesFor out.2.2.1 p0.id := by
  intro ps
  induction ps with
  | nil =>
    intro vis out _ h
    rw [resolveLoop_nil_ok h]
    exact ⟨rfl, fun i p0 p1 hp => absurd hp (by simp)⟩
  | cons p rest ih =>
    intro vis out hnd h
    obtain ⟨p1c, vis2, evs1, recs1, ps2, v, evs2, recs2, hstep, hrec, hout⟩ :=
      resolveLoop_cons_ok h
    have hnd2 : (rest.map (fun p => p.id)).Nodup := (List.nodup_cons.mp hnd).2
    have hpid : p.id ∉ rest.map (fun p => p.id) := (List.nodup_cons.mp hnd).1
    have hps : out.1 = p1c :: ps2 := congrArg (fun x => x.1) hout
    have hevs : out.2.2.1 = evs1 ++ evs2 := congrArg (fun x => x.2.2.1) hout
    obtain ⟨hids2, hsc2⟩ := ih vis2 (ps2, v, evs2, recs2) hnd2 hrec
    have hcnt2 : countMovesFor evs2 p.id = 0 := by
      apply countMovesFor_eq_zero
      apply no_move_to_all_false
      intro fr t hmem
      exact hpid (resolveLoop_move_pid_mem rest vis2 (ps2, v, evs2, recs2)
        hrec p.id fr t hmem)
    have hone : p1c.id = p.id ∧
        ((p1c = p ∧ countMovesFor evs1 p.id = 0 ∧
          (∀ q : Player, q.id ≠ p.id → countMovesFor evs1 q.id = 0)) ∨
         (p1c.score = p.score + 1 ∧ countMovesFor evs1 p.id = 1 ∧
          (∀ q : Player, q.id ≠ p.id → countMovesFor evs1 q.id = 0))) := by
      rcases stepPlayer_cases hstep with
        ⟨hout2, _⟩ | ⟨nr, nc, _, _, ⟨_, hout2⟩ | ⟨_, _, hout2⟩ | ⟨_, _, hout2⟩⟩
      · have hp1 : p1c = p := congrArg (fun x => x.1) hout2
        have he1 : evs1 = [] := congrArg (fun x => x.2.2.1) hout2
        exact ⟨by rw [hp1], Or.inl ⟨hp1, by rw [he1]; rfl, fun q _ => by rw [he1]; rfl⟩⟩
      · have hp1 : p1c = p := congrArg (fun x => x.1) hout2
        have he1 : evs1 = [Event.collision [] (nr, nc)] :=
          congrArg (fun x => x.2.2.1) hout2
        refine ⟨by rw [hp1], Or.inl ⟨hp1, ?_, fun q _ => ?_⟩⟩
        · rw [he1]; rfl
        · rw [he1]; rfl
      · have hp1 : p1c = { p with row := nr, col := nc, score := p.score + 1 } :=
          congrArg (fun x => x.1) hout2
        have he1 : evs1 = [Event.move p.id (p.row, p.col) (nr, nc)] :=
          congrArg (fun x => x.2.2.1) hout2
        refine ⟨by rw [hp1], Or.inr ⟨by rw [hp1], ?_, fun q hq => ?_⟩⟩
        · rw [he1]; exact countMovesFor_single_self p.id _ _
        · rw [he1]; exact countMovesFor_single_ne (fun he => hq he.symm) _ _
      · have hp1 : p1c = p := congrArg (fun x => x.1) hout2
        have he1 : evs1 = [Event.blocked p.id (nr, nc)] :=
          congrArg (fun x => x.2.2.1) hout2
        refine ⟨by rw [hp1], Or.inl ⟨hp1, ?_, fun q _ => ?_⟩⟩
        · rw [he1]; rfl
        · rw [he1]; rfl
    obtain ⟨hid1, hcase⟩ := hone
    constructor
    · rw [hps, List.map_cons, List.map_cons, hid1, hids2]
    · intro i p0 p1 hp hq
      rw [hps] at hq
      rw [hevs, countMovesFor_append]
      cases i with
      | zero =>
        obtain rfl : p0 = p := by
          rw [List.getElem?_cons_zero] at hp
          exact (Option.some.inj hp).symm
        obtain rfl : p1 = p1c := by
          rw [List.getElem?_cons_zero] at hq
          exact (Option.some.inj hq).symm
        rcases hcase with ⟨hp1, hc1, _⟩ | ⟨hsc, hc1, _⟩
        · rw [hp1, hc1, hcnt2]
          omega
        · rw [hsc, hc1, hcnt2]
      | succ j =>
        rw [List.getElem?_cons_succ] at hp hq
        have hq0mem : p0 ∈ rest := List.getElem?_mem hp
        have hqne : p0.id ≠ p.id := fun he =>
          hpid (he ▸ List.mem_map.mpr ⟨p0, hq0mem, rfl⟩)
        have hc1 : countMovesFor evs1 p0.id = 0 := by
          rcases hcase with ⟨_, _, hall⟩ | ⟨_, _, hall⟩
          · exact hall p0 hqne
          · exact hall p0 hqne
        rw [hc1, Nat.zero_add]
        exact hsc2 j p0 p1 hp hq

/-- Resolution-level form of the score bookkeeping. -/
theorem resolveTurn_score (s : GameState)
    (hnd : (s.players.map (fun p => p.id)).Nodup)
    (s1 : GameState) (evs1 : List Event)
    (hok : resolveTurn s = Except.ok (s1, evs1)) :
    s1.players.map (fun p => p.id) = s.players.map (fun p => p.id) ∧
    ∀ (i : Nat) (p0 p1 : Player), s.players[i]? = some p0 →
      s1.players[i]? = some p1 →
      p1.score = p0.score + countMovesFor evs1 p0.id := by
  obtain ⟨players1, visited1, recMoves, hloop, hs1⟩ := resolveTurn_ok_loop hok
  obtain ⟨hids, hsc⟩ := resolveLoop_score s.players s.visited
    (players1, visited1, evs1, recMoves) hnd hloop
  subst hs1
  exact ⟨hids, hsc⟩

/-- Evaluation preserves ids and scores and emits no `move` events. -/
theorem evaluateState_players (s : GameState) :
    (evaluateState s).1.players.map (fun p => p.id)
      = s.players.map (fun p => p.id) ∧
    (∀ (i : Nat) (p0 p1 : Player), s.players[i]? = some p0 →
      (evaluateState s).1.players[i]? = some p1 →
      p1.score = p0.score ∧ p1.id = p0.id) ∧
    (∀ e ∈ (evaluateState s).2, ∀ pid, isMoveOf pid e = false) := by
  have hElim : ∀ e ∈ elimEventsOf s, ∀ pid, isMoveOf pid e = false := by
    intro e hmem pid
    unfold elimEventsOf at hmem
    obtain ⟨p, _, hev⟩ := List.mem_filterMap.mp hmem
    split at hev
    · rw [← Option.some.inj hev]; rfl
    · exact absurd hev (by simp)
  have hElimPass : ∀ q : Player,
      ((if statusAlive q && noMoves s q then { q with status := PStatus.ELIMINATED }
        else q) : Player).score = q.score ∧
      ((if statusAlive q && noMoves s q then { q with status := PStatus.ELIMINATED }
        else q) : Player).id = q.id := by
    intro q
    constructor <;> (split <;> rfl)
  unfold evaluateState
  split
  · split
    · -- one survivor
      refine ⟨?_, ?_, ?_⟩
      · simp only [List.map_map]
        unfold elimPass
        rw [List.map_map]
        apply List.map_congr_left
        intro q _
        simp only [Function.comp]
        split <;> split <;> rfl
      · intro i p0 p1 hp hq
        simp only [List.getElem?_map, elimPass_getElem?, hp, Option.map_some'] at hq
        rw [← Option.some.inj hq]
        constructor
        · split <;> split <;> rfl
        · split <;> split <;> rfl
      · intro e hmem pid
        rcases List.mem_append.mp hmem with h1 | h1
        · exact hElim e h1 pid
        · rw [List.mem_singleton.mp h1]; rfl
    · -- zero survivors
      refine ⟨?_, ?_, ?_⟩
      · simp only [List.map_map]
        unfold elimPass
        rw [List.map_map]
        apply List.map_congr_left
        intro q _
        simp only [Function.comp]
        split <;> split <;> rfl
      · intro i p0 p1 hp hq
        simp only [List.getElem?_map, elimPass_getElem?, hp, Option.map_some'] at hq
        rw [← Option.some.inj hq]
        constructor
        · split <;> split <;> rfl
        · split <;> split <;> rfl
      · intro e hmem pid
        rcases List.mem_append.mp hmem with h1 | h1
        · exact hElim e h1 pid
        · obtain ⟨q, _, hev⟩ := List.mem_filterMap.mp h1
          split at hev
          · rw [← Option.some.inj hev]; rfl
          · exact absurd hev (by simp)
  · -- two or more survivors
    refine ⟨?_, ?_, ?_⟩
    · unfold elimPass
      rw [List.map_map]
      apply List.map_congr_left
      intro q _
      simp only [Function.comp]
      split <;> rfl
    · intro i p0 p1 hp hq
      simp only [elimPass_getElem?, hp, Option.map_some'] at hq
      rw [← Option.some.inj hq]
      exact hElimPass p0
    · intro e hmem pid
      exact hElim e hmem pid

/-- States reachable from `initState` by `submitMove`, successful
`resolveTurn` and `evaluateState`, together with the accumulated event
log. -/
inductive Reach : GameState → List Event → Prop where
  | init (boardSize : Nat) (seed : Int) (playerCount cpuCount : Nat)
      (rules : Ruleset) (s : GameState) :
      initState boardSize seed playerCount cpuCount rules = some s → Reach s []
  | submit (s : GameState) (evs : List Event) (pid : Nat) (r c : Int) :
      Reach s evs → Reach (submitMove s pid r c) evs
  | resolve (s : GameState) (evs : List Event) (s1 : GameState)
      (evs1 : List Event) :
      Reach s evs → resolveTurn s = Except.ok (s1, evs1) →
      Reach s1 (evs ++ evs1)
  | eval (s : GameState) (evs : List Event) :
      Reach s evs → Reach (evaluateState s).1 (evs ++ (evaluateState s).2)

theorem initState_ids {boardSize : Nat} {seed : Int}
    {playerCount cpuCount : Nat} {rules : Ruleset} {s : GameState}
    (h : initState boardSize seed playerCount cpuCount rules = some s) :
    s.players.map (fun p => p.id) = List.range playerCount ∧
    ∀ p ∈ s.players, p.score = 1 := by
  unfold initState at h
  split at h
  · obtain rfl : _ = s := Option.some.inj h
    constructor
    · rw [List.map_map]
      trans (List.range playerCount).map (fun i => i)
      · exact List.map_congr_left (fun i _ => rfl)
      · exact List.map_id' _
    · intro p hp
      obtain ⟨i, _, rfl⟩ := List.mem_map.mp hp
      rfl
  · exact absurd h (by simp)

/-- The combined reachability invariant: ids stay distinct and every
score is one more than the number of `move` events for that id. -/
theorem reach_score_nodup (s : GameState) (evs : List Event)
    (h : Reach s evs) :
    (s.players.map (fun p => p.id)).Nodup ∧
    ∀ p ∈ s.players, p.score = 1 + countMovesFor evs p.id := by
  induction h with
  | init bs seed pc cc rules s0 hinit =>
    obtain ⟨hids, hsc⟩ := initState_ids hinit
    constructor
    · rw [hids]
      exact List.nodup_range _
    · intro p hp
      rw [hsc p hp]
      rfl
  | submit s evs pid r c hre ih => exact ih
  | resolve s evs s1 evs1 hre hok ih =>
    obtain ⟨hnd, hsc⟩ := ih
    obtain ⟨hids, hpt⟩ := resolveTurn_score s hnd s1 evs1 hok
    refine ⟨by rw [hids]; exact hnd, ?_⟩
    intro p1 hp1
    obtain ⟨i, hq⟩ := List.mem_iff_getElem?.mp hp1
    have hlen : s1.players.length = s.players.length := by
      have h2 := congrArg List.length hids
      simpa using h2
    have hi : i < s.players.length := by
      have h3 := (List.getElem?_eq_some.mp hq).1
      omega
    have hp0 : s.players[i]? = some (s.players[i]) :=
      List.getElem?_eq_some.mpr ⟨hi, rfl⟩
    have hscore := hpt i (s.players[i]) p1 hp0 hq
    have hid : p1.id = (s.players[i]).id := by
      have h2 := congrArg (fun l => l[i]?) hids
      simp only [List.getElem?_map, hq, hp0, Option.map_some'] at h2
      exact Option.some.inj h2
    rw [countMovesFor_append, hscore, hid]
    have h4 := hsc (s.players[i]) (List.getElem?_mem hp0)
    omega
  | eval s evs hre ih =>
    obtain ⟨hnd, hsc⟩ := ih
    obtain ⟨hids, hpt, hnomove⟩ := evaluateState_players s
    refine ⟨by rw [hids]; exact hnd, ?_⟩
    intro p1 hp1
    obtain ⟨i, hq⟩ := List.mem_iff_getElem?.mp hp1
    have hlen : (evaluateState s).1.players.length = s.players.length := by
      have h2 := congrArg List.length hids
      simpa using h2
    have hi : i < s.players.length := by
      have h3 := (List.getElem?_eq_some.mp hq).1
      omega
    have hp0 : s.players[i]? = some (s.players[i]) :=
      List.getElem?_eq_some.mpr ⟨hi, rfl⟩
    obtain ⟨hscore, hid⟩ := hpt i (s.players[i]) p1 hp0 hq
    have hcnt0 : countMovesFor (evaluateState s).2 p1.id = 0 :=
      countMovesFor_eq_zero (fun e he => hnomove e he p1.id)
    rw [hid] at hcnt0
    rw [countMovesFor_append, hscore, hid, hcnt0]
    have h4 := hsc (s.players[i]) (List.getElem?_mem hp0)
    omega

/-- C4: in every state reachable from `initState` by `submitMove`,
`resolveTurn` and `evaluateState`, every player's score equals 1 plus the
number of `move` events of which it was the subject. -/
theorem score_invariant (s : GameState) (evs : List Event)
    (h : Reach s evs) :
    ∀ p ∈ s.players, p.score = 1 + countMovesFor evs p.id :=
  (reach_score_nodup s evs h).2

/-- Witness for C4: after the `(1,1) → (2,3)` move of Scenario A, player
0 has score 2 = 1 + one move event. -/
theorem score_invariant_witness :
    (rA.players.getD 0 dummyPlayer).score
      = 1 + countMovesFor ([] ++ [Event.move 0 (1, 1) (2, 3)])
          (rA.players.getD 0 dummyPlayer).id := by
  have hreach : Reach rA ([] ++ [Event.move 0 (1, 1) (2, 3)]) :=
    Reach.resolve (submitMove stateA 0 2 3) [] rA [Event.move 0 (1, 1) (2, 3)]
      (Reach.submit stateA [] 0 2 3
        (Reach.init 8 42 2 0 defaultRules stateA rfl)) rfl
  exact score_invariant rA ([] ++ [Event.move 0 (1, 1) (2, 3)]) hreach
    (rA.players.getD 0 dummyPlayer) (by decide)

/-! ### C8: round progress and the (non-)termination bound -/

/-- Whether an event is a `move` event. -/
def isMove : Event → Bool
  | Event.move _ _ _ => true
  | _ => false

/-- The number of executed moves in a round's event list. -/
def moveEventCount (evs : List Event) : Nat := (evs.filter isMove).length

/-- EMPTY cells in one row. -/
def countEmptyRow (row : List Nat) : Nat :=
  (row.filter (fun v => v == CELL_EMPTY)).length

/-- EMPTY cells in the grid. -/
def countEmpty (g : List (List Nat)) : Nat := (g.map countEmptyRow).sum

theorem countEmptyRow_set {row : List Nat} {c : Nat}
    (h : row[c]? = some CELL_EMPTY) :
    countEmptyRow (row.set c CELL_BLOCKED) + 1 = countEmptyRow row := by
  induction row generalizing c with
  | nil => simp at h
  | cons a t ih =>
    cases c with
    | zero =>
      obtain rfl : a = CELL_EMPTY := by
        rw [List.getElem?_cons_zero] at h
        exact Option.some.inj h
      unfold countEmptyRow
      rw [List.set_cons_zero]
      rw [List.filter_cons, List.filter_cons]
      rw [if_neg (by decide), if_pos (by decide)]
      simp [Nat.add_comm]
    | succ c2 =>
      rw [List.getElem?_cons_succ] at h
      unfold countEmptyRow at ih ⊢
      rw [List.set_cons_succ, List.filter_cons, List.filter_cons]
      split
      · simp only [List.length_cons]
        have := ih h
        omega
      · exact ih h

theorem countEmpty_set {g : List (List Nat)} {i : Nat} {row : List Nat}
    (h : g[i]? = some row) (row2 : List Nat) :
    countEmpty (g.set i row2) + countEmptyRow row
      = countEmpty g + countEmptyRow row2 := by
  induction g generalizing i with
  | nil => simp at h
  | cons r0 t ih =>
    cases i with
    | zero =>
      obtain rfl : r0 = row := by
        rw [List.getElem?_cons_zero] at h
        exact Option.some.inj h
      unfold countEmpty
      rw [List.set_cons_zero, List.map_cons, List.map_cons, List.sum_cons,
        List.sum_cons]
      omega
    | succ j =>
      rw [List.getElem?_cons_succ] at h
      unfold countEmpty at ih ⊢
      rw [List.set_cons_succ, List.map_cons, List.map_cons, List.sum_cons,
        List.sum_cons]
      have := ih h
      omega

theorem countEmpty_write {g : List (List Nat)} {r c : Int}
    (h : readCell g r c = Except.ok (some CELL_EMPTY)) :
    countEmpty (writeCell g r c CELL_BLOCKED) + 1 = countEmpty g := by
  obtain ⟨hr, hc, row, hrow, hcell⟩ := readCell_ok_some h
  rw [writeCell_eq_set hr hc hrow]
  have hA := countEmpty_set hrow (row.set c.toNat CELL_BLOCKED)
  have hB := countEmptyRow_set hcell
  omega

/-- The loop consumes exactly one EMPTY cell per executed move. -/
theorem resolveLoop_empty_count {intended : List (Nat × (Int × Int))}
    {dc : (Int × Int) → Nat} :
    ∀ (ps : List Player) (vis : List (List Nat))
      (out : List Player × List (List Nat) × List Event × List TurnMove),
      resolveLoop intended dc ps vis = .ok out →
      countEmpty out.2.1 + moveEventCount out.2.2.1 = countEmpty vis := by
  intro ps
  induction ps with
  | nil =>
    intro vis out h
    rw [resolveLoop_nil_ok h]
    rfl
  | cons p rest ih =>
    intro vis out h
    obtain ⟨p1, vis2, evs1, recs1, ps2, v, evs2, recs2, hstep, hrec, hout⟩ :=
      resolveLoop_cons_ok h
    have hv : out.2.1 = v := congrArg (fun x => x.2.1) hout
    have hevs : out.2.2.1 = evs1 ++ evs2 := congrArg (fun x => x.2.2.1) hout
    have hih := ih vis2 (ps2, v, evs2, recs2) hrec
    rw [hv, hevs]
    unfold moveEventCount
    rw [List.filter_append, List.length_append]
    rcases stepPlayer_cases hstep with
      ⟨hout2, _⟩ | ⟨nr, nc, _, _, ⟨_, hout2⟩ | ⟨_, hemp, hout2⟩ | ⟨_, _, hout2⟩⟩
    · have hv2 : vis2 = vis := congrArg (fun x => x.2.1) hout2
      have he1 : evs1 = [] := congrArg (fun x => x.2.2.1) hout2
      rw [he1, ← hv2]
      simpa [moveEventCount] using hih
    · have hv2 : vis2 = vis := congrArg (fun x => x.2.1) hout2
      have he1 : evs1 = [Event.collision [] (nr, nc)] :=
        congrArg (fun x => x.2.2.1) hout2
      rw [he1, ← hv2]
      have h0 : ([Event.collision [] (nr, nc)].filter isMove).length = 0 := rfl
      rw [h0]
      simpa [moveEventCount] using hih
    · have hv2 : vis2 = writeCell vis nr nc CELL_BLOCKED :=
        congrArg (fun x => x.2.1) hout2
      have he1 : evs1 = [Event.move p.id (p.row, p.col) (nr, nc)] :=
        congrArg (fun x => x.2.2.1) hout2
      have hwr := countEmpty_write hemp
      rw [he1]
      have h1 : ([Event.move p.id (p.row, p.col) (nr, nc)].filter isMove).length
          = 1 := rfl
      rw [h1]
      have hih2 : countEmpty v + moveEventCount evs2 = countEmpty vis2 := hih
      rw [hv2] at hih2
      unfold moveEventCount at hih2
      omega
    · have hv2 : vis2 = vis := congrArg (fun x => x.2.1) hout2
      have he1 : evs1 = [Event.blocked p.id (nr, nc)] :=
        congrArg (fun x => x.2.2.1) hout2
      rw [he1, ← hv2]
      have h0 : ([Event.blocked p.id (nr, nc)].filter isMove).length = 0 := rfl
      rw [h0]
      simpa [moveEventCount] using hih

/-- C8 (amended): a successful round consumes exactly one EMPTY grid
cell per executed move and never frees cells —
`countEmpty after + number of move events = countEmpty before` — so at
most `countEmpty` move-executing rounds are possible; but a round may
execute no move at all (for example a persistent collision), in which
case the grid makes no progress, and GAMEOVER within
`boardSize² − obstacleCount` rounds is NOT guaranteed for every intent
sequence (see the counterexample). -/
theorem resolveTurn_consumes_cells (s : GameState) (s1 : GameState)
    (evs : List Event) (hok : resolveTurn s = Except.ok (s1, evs)) :
    countEmpty s1.visited + moveEventCount evs = countEmpty s.visited := by
  obtain ⟨players1, visited1, recMoves, hloop, hs1⟩ := resolveTurn_ok_loop hok
  subst hs1
  exact resolveLoop_empty_count s.players s.visited
    (players1, visited1, evs, recMoves) hloop

/-- Witness for the amended C8: the move round of Scenario A consumes
exactly one cell. -/
theorem resolveTurn_consumes_cells_witness :
    countEmpty rA.visited + moveEventCount [Event.move 0 (1, 1) (2, 3)]
      = countEmpty (submitMove stateA 0 2 3).visited :=
  resolveTurn_consumes_cells (submitMove stateA 0 2 3) rA
    [Event.move 0 (1, 1) (2, 3)] rfl

/-- One adversarial round: both Scenario A players submit `(3,2)`, the
round is resolved and evaluated.  Every such round is a pure collision
and returns to SELECT. -/
def roundB (s : GameState) : GameState :=
  match resolveTurn (submitMove (submitMove s 0 3 2) 1 3 2) with
  | .ok (s2, _) => (evaluateState s2).1
  | .error _ => s

/-- The state after `k` adversarial collision rounds from Scenario A. -/
def stateBk (k : Nat) : GameState :=
  { stateA with
      turn := k
      history := (List.range k).map (fun i => { turn := i, moves := [] }) }

theorem roundB_shape (t : Nat) (h : List TurnRecord) :
    roundB { stateA with turn := t, history := h }
      = { stateA with turn := t + 1, history := h ++ [{ turn := t, moves := [] }] } :=
  rfl

theorem roundB_stateBk (k : Nat) : roundB (stateBk k) = stateBk (k + 1) := by
  unfold stateBk
  rw [roundB_shape]
  have hh : ((List.range k).map
        (fun i => ({ turn := i, moves := [] } : TurnRecord)))
        ++ [{ turn := k, moves := [] }]
      = (List.range (k + 1)).map
        (fun i => ({ turn := i, moves := [] } : TurnRecord)) := by
    rw [List.range_succ, List.map_append]
    rfl
  rw [hh]

theorem roundB_iterate (k : Nat) : roundB^[k] stateA = stateBk k := by
  induction k with
  | zero => rfl
  | succ m ih =>
    rw [Function.iterate_succ_apply', ih, roundB_stateBk]

/-- `true` iff none of the first `n` adversarial rounds from Scenario A
has reached GAMEOVER. -/
def noGameoverUpTo (n : Nat) : Bool :=
  (List.range n).all (fun k => !((roundB^[k] stateA).phase == Phase.GAMEOVER))

/-- Counterexample for C8: Scenario A has `boardSize² − obstacleCount
= 64`, yet under the intent sequence in which both players submit `(3,2)`
every round, none of rounds 0..64 reaches GAMEOVER — the game is not
bounded by `boardSize² − obstacleCount` rounds for every intent
sequence. -/
theorem termination_bound_violated :
    noGameoverUpTo 65 = true ∧ 8 * 8 - 0 < 65 := by
  constructor
  · unfold noGameoverUpTo
    rw [List.all_eq_true]
    intro k _
    rw [roundB_iterate k]
    rfl
  · decide

/-! ### C9: strategies restore every cell they temporarily mark -/

theorem cellAt_some {g : List (List Nat)} {r c : Int} {v : Nat}
    (h : cellAt g r c = some v) :
    0 ≤ r ∧ 0 ≤ c ∧ ∃ row, g[r.toNat]? = some row ∧ row[c.toNat]? = some v := by
  unfold cellAt at h
  split at h
  · exact absurd h (by simp)
  · rename_i row hrow
    obtain ⟨hr, hrow2⟩ := rowAt_eq_some hrow
    split at h
    · exact ⟨hr, by assumption, row, hrow2, h⟩
    · exact absurd h (by simp)

/-- Marking a cell and writing back its original value restores the
grid exactly. -/
theorem writeCell_restore {g : List (List Nat)} {r c : Int} {orig : Nat}
    (h : cellAt g r c = some orig) (w : Nat) :
    writeCell (writeCell g r c w) r c orig = g := by
  obtain ⟨hr, hc, row, hrow, hcell⟩ := cellAt_some h
  have hrlt : r.toNat < g.length := (List.getElem?_eq_some.mp hrow).1
  rw [writeCell_eq_set hr hc hrow w]
  have hrow1 : (g.set r.toNat (row.set c.toNat w))[r.toNat]?
      = some (row.set c.toNat w) := List.getElem?_set_self (by simpa using hrlt)
  rw [writeCell_eq_set hr hc hrow1 orig]
  rw [List.set_set, List.set_set, list_set_of_getElem? hcell,
    list_set_of_getElem? hrow]

theorem scoreMobilitySim_eq {size : Nat} {vis : List (List Nat)} {r c : Int}
    {orig : Nat} (h : cellAt vis r c = some orig) :
    scoreMobilitySim size vis r c
      = some (countMobility r c size (writeCell vis r c 1), vis) := by
  unfold scoreMobilitySim
  rw [h]
  show some (countMobility r c size (writeCell vis r c 1),
      writeCell (writeCell vis r c 1) r c orig)
    = some (countMobility r c size (writeCell vis r c 1), vis)
  rw [writeCell_restore h 1]

theorem legal_cellAt_empty {r c : Int} {size : Nat} {vis : List (List Nat)}
    {m : Int × Int} (h : m ∈ getLegalMoves r c size vis) :
    cellAt vis m.1 m.2 = some CELL_EMPTY := by
  unfold getLegalMoves at h
  obtain ⟨d, _, hm⟩ := List.mem_filterMap.mp h
  split at hm
  · rename_i hcond
    obtain rfl : (r + d.1, c + d.2) = m := Option.some.inj hm
    rw [Bool.and_eq_true] at hcond
    simpa using hcond.2
  · exact absurd hm (by simp)

theorem mobilityLoop_restores (size : Nat) :
    ∀ (moves : List (Int × Int)) (vis : List (List Nat)) (x : Nat)
      (best : Option (Int × Int)) (bs : Int),
      (∀ m ∈ moves, (cellAt vis m.1 m.2).isSome) →
      ∃ b x1, mobilityLoop size moves vis x best bs = some (b, vis, x1) := by
  intro moves
  induction moves with
  | nil => intro vis x best bs _; exact ⟨best, x, rfl⟩
  | cons m rest ih =>
    intro vis x best bs hcells
    obtain ⟨r, c⟩ := m
    obtain ⟨orig, hor⟩ := Option.isSome_iff_exists.mp
      (hcells (r, c) (List.mem_cons_self _ _))
    have hrest : ∀ m ∈ rest, (cellAt vis m.1 m.2).isSome :=
      fun m hm => hcells m (List.mem_cons_of_mem _ hm)
    unfold mobilityLoop
    simp only [scoreMobilitySim_eq hor]
    split
    · exact ih vis x _ _ hrest
    · split
      · split
        · exact ih vis _ _ _ hrest
        · exact ih vis _ _ _ hrest
      · exact ih vis x _ _ hrest

theorem mobilityStrategy_restores (size : Nat) (vis : List (List Nat))
    (x : Nat) (moves : List (Int × Int))
    (hcells : ∀ m ∈ moves, (cellAt vis m.1 m.2).isSome) :
    ∃ choice x1, mobilityStrategy size vis x moves = some (choice, vis, x1) := by
  obtain ⟨b, x1, hloop⟩ := mobilityLoop_restores size moves vis x none (-1) hcells
  unfold mobilityStrategy
  rw [hloop]
  exact ⟨_, x1, rfl⟩

theorem aggressorLoop_restores (size : Nat) (opponents : List Player) :
    ∀ (moves : List (Int × Int)) (vis : List (List Nat)) (x : Nat)
      (best : Option (Int × Int)) (bs : Option Int),
      (∀ m ∈ moves, (cellAt vis m.1 m.2).isSome) →
      ∃ b x1, aggressorLoop size opponents moves vis x best bs
        = some (b, vis, x1) := by
  intro moves
  induction moves with
  | nil => intro vis x best bs _; exact ⟨best, x, rfl⟩
  | cons m rest ih =>
    intro vis x best bs hcells
    obtain ⟨r, c⟩ := m
    obtain ⟨orig, hor⟩ := Option.isSome_iff_exists.mp
      (hcells (r, c) (List.mem_cons_self _ _))
    have hrest : ∀ m ∈ rest, (cellAt vis m.1 m.2).isSome :=
      fun m hm => hcells m (List.mem_cons_of_mem _ hm)
    have hw := writeCell_restore hor 1
    unfold aggressorLoop
    simp only [hor, hw]
    split
    · exact ih vis x _ _ hrest
    · split
      · exact ih vis x _ _ hrest
      · split
        · split
          · exact ih vis _ _ _ hrest
          · exact ih vis _ _ _ hrest
        · exact ih vis x _ _ hrest

theorem aggressorStrategy_restores (size : Nat) (players : List Player)
    (vis : List (List Nat)) (x : Nat) (playerId : Nat)
    (moves : List (Int × Int))
    (hcells : ∀ m ∈ moves, (cellAt vis m.1 m.2).isSome) :
    ∃ choice x1, aggressorStrategy size players vis x playerId moves
      = some (choice, vis, x1) := by
  unfold aggressorStrategy
  split
  · exact mobilityStrategy_restores size vis x moves hcells
  · obtain ⟨b, x1, hloop⟩ := aggressorLoop_restores size
      (getOpponents players playerId) moves vis x none none hcells
    rw [hloop]
    exact ⟨_, x1, rfl⟩

theorem balancedLoop_restores (size : Nat) (opponents : List Player)
    (mw aw : ℚ) :
    ∀ (moves : List (Int × Int)) (vis : List (List Nat)) (x : Nat)
      (best : Option (Int × Int)) (bs : Option ℚ),
      (∀ m ∈ moves, (cellAt vis m.1 m.2).isSome) →
      ∃ b x1, balancedLoop size opponents mw aw moves vis x best bs
        = some (b, vis, x1) := by
  intro moves
  induction moves with
  | nil => intro vis x best bs _; exact ⟨best, x, rfl⟩
  | cons m rest ih =>
    intro vis x best bs hcells
    obtain ⟨r, c⟩ := m
    obtain ⟨orig, hor⟩ := Option.isSome_iff_exists.mp
      (hcells (r, c) (List.mem_cons_self _ _))
    have hrest : ∀ m ∈ rest, (cellAt vis m.1 m.2).isSome :=
      fun m hm => hcells m (List.mem_cons_of_mem _ hm)
    have hw := writeCell_restore hor 1
    unfold balancedLoop
    simp only [hor, hw]
    split
    · exact ih vis _ _ _ hrest
    · exact ih vis _ _ _ hrest

theorem balancedStrategy_restores (size : Nat) (players : List Player)
    (vis : List (List Nat)) (x : Nat) (playerId : Nat)
    (moves : List (Int × Int))
    (hcells : ∀ m ∈ moves, (cellAt vis m.1 m.2).isSome) :
    ∃ choice x1, balancedStrategy size players vis x playerId moves
      = some (choice, vis, x1) := by
  unfold balancedStrategy
  obtain ⟨b, x1, hloop⟩ := balancedLoop_restores size
    (getOpponents players playerId)
    (1 - balancedDensity size vis * (1/2)) (balancedDensity size vis * 2)
    moves vis x none none hcells
  rw [hloop]
  exact ⟨_, x1, rfl⟩

/-- C9: each built-in strategy (`mobility`, `aggressor`, `balanced`)
restores every grid cell it temporarily marks: for any grid, player and
non-empty list of legal moves, the strategy returns normally and the
grid at return time is identical to the grid at entry. -/
theorem strategies_restore_grid (size : Nat) (players : List Player)
    (vis : List (List Nat)) (x : Nat) (p : Player)
    (moves : List (Int × Int)) (hne : moves ≠ [])
    (hlegal : ∀ m ∈ moves, m ∈ getLegalMoves p.row p.col size vis) :
    (∃ choice x1, mobilityStrategy size vis x moves = some (choice, vis, x1)) ∧
    (∃ choice x1, aggressorStrategy size players vis x p.id moves
      = some (choice, vis, x1)) ∧
    (∃ choice x1, balancedStrategy size players vis x p.id moves
      = some (choice, vis, x1)) := by
  have hcells : ∀ m ∈ moves, (cellAt vis m.1 m.2).isSome := by
    intro m hm
    rw [legal_cellAt_empty (hlegal m hm)]
    rfl
  exact ⟨mobilityStrategy_restores size vis x moves hcells,
    aggressorStrategy_restores size players vis x p.id moves hcells,
    balancedStrategy_restores size players vis x p.id moves hcells⟩

/-- A 5×5 grid with two marked corners, for the strategy witness. -/
def v5 : List (List Nat) :=
  [[1, 0, 0, 0, 0], [0, 0, 0, 0, 0], [0, 0, 0, 0, 0], [0, 0, 0, 0, 0],
   [0, 0, 0, 0, 1]]

/-- Two players on the `v5` grid. -/
def pl5 : List Player :=
  [{ id := 0, isHuman := false, status := PStatus.ALIVE, row := 0, col := 0,
     score := 1, aiStrategy := some "aggressor" },
   { id := 1, isHuman := false, status := PStatus.ALIVE, row := 4, col := 4,
     score := 1, aiStrategy := some "mobility" }]

/-- Player 0's legal moves on `v5`. -/
def mv5 : List (Int × Int) := getLegalMoves 0 0 5 v5

/-- Witness for C9: on the concrete 5×5 position, all three strategies
return the entry grid unchanged. -/
theorem strategies_restore_grid_witness :
    ((mobilityStrategy 5 v5 (rngInit 42) mv5).map (fun r => r.2.1) = some v5) ∧
    ((aggressorStrategy 5 pl5 v5 (rngInit 42) 0 mv5).map (fun r => r.2.1)
      = some v5) ∧
    ((balancedStrategy 5 pl5 v5 (rngInit 42) 0 mv5).map (fun r => r.2.1)
      = some v5) := by
  obtain ⟨h1, h2, h3⟩ := strategies_restore_grid 5 pl5 v5 (rngInit 42)
    { id := 0, isHuman := false, status := PStatus.ALIVE, row := 0, col := 0,
      score := 1, aiStrategy := some "aggressor" }
    mv5 (by decide) (fun m hm => hm)
  obtain ⟨c1, x1, e1⟩ := h1
  obtain ⟨c2, x2, e2⟩ := h2
  obtain ⟨c3, x3, e3⟩ := h3
  refine ⟨?_, ?_, ?_⟩
  · rw [e1]; rfl
  · rw [e2]; rfl
  · rw [e3]; rfl

end KnightSprint
